import Mathlib

/-!
Shallow embedding of the SiriDB insert path (src/siri/db/insert.c) and of the
administrative request handler (the request.c part of the same source pack).

The qpack ("TBF") codec is external to the repository; an unpacker is modelled
as a list of already-lexed tokens (`qp_next` pops the head and returns the
END type on exhaustion, exactly as the C reader does at end of input) and a
packer as the list of tokens appended to it.  Every `qp_add_*` call of the C
code appends the corresponding output token; the byte image of a packer is the
deterministic per-token encoding `tbfBytes`, so byte equality of two packers
is exactly equality of their token lists.
-/

namespace SiriDB

/-- Byte strings (qpack RAW payloads, series names, server names). -/
abbrev Bytes := List Nat

/-- Tokens returned by `qp_next` on an unpacker.  `array2` and `map2` are the
fixed-size container markers (QP_ARRAY2 and QP_MAP2); their elements follow
inline, exactly as the C code reads them with further `qp_next` calls. -/
inductive QpTok where
  | map_open
  | map_close
  | array_open
  | array_close
  | array2
  | map2
  | raw (s : Bytes)
  | int64 (i : Int)
  | double (d : Nat)
  | endTok
  deriving DecidableEq, Repr

/-- Model of qpack's `qp_is_array`: true for the open marker and the fixed
sizes (the insert path only ever meets QP_ARRAY2 among the fixed sizes). -/
def qp_is_array : QpTok → Bool
  | QpTok.array_open => true
  | QpTok.array2 => true
  | _ => false

/-- Model of qpack's `qp_is_map`. -/
def qp_is_map : QpTok → Bool
  | QpTok.map_open => true
  | QpTok.map2 => true
  | _ => false

/-- Model of qpack's `qp_is_raw_term`: a RAW that is non-empty and ends in a
zero byte. -/
def qp_is_raw_term : QpTok → Bool
  | QpTok.raw s => s ≠ [] ∧ s.getLast? = some 0
  | _ => false

/-- Model of `qp_next`: pop one token; at end of input return the END type. -/
def qp_next : List QpTok → QpTok × List QpTok
  | [] => (QpTok.endTok, [])
  | t :: ts => (t, ts)

/-- The bytes before the first zero byte: how a C string function sees a
null-terminated qpack raw (`qp_series_name->via->raw`). -/
def cstr (s : Bytes) : Bytes := s.takeWhile (· ≠ 0)

/-- Tokens appended to a packer by the `qp_add_*` family.  `raw_term` is
`qp_add_raw_term`: the raw payload plus a terminating zero byte. -/
inductive OutTok where
  | map_open
  | array_open
  | array_close
  | array2
  | raw_term (s : Bytes)
  | raw (s : Bytes)
  | int64 (i : Int)
  | double (d : Nat)
  deriving DecidableEq, Repr

/-- Deterministic byte image of one output token (a model of the qpack
encoder: a type byte, a length where needed, then the payload).  Exact byte
values are irrelevant to every property below; determinism is what makes
token-list equality the same thing as byte equality. -/
def tbfTokBytes : OutTok → List Nat
  | OutTok.map_open => [252]
  | OutTok.array_open => [251]
  | OutTok.array_close => [254]
  | OutTok.array2 => [238]
  | OutTok.raw_term s => 228 :: (s.length + 1) :: (s ++ [0])
  | OutTok.raw s => 228 :: s.length :: s
  | OutTok.int64 i => [232, (i % (2 ^ 64)).toNat]
  | OutTok.double d => [233, d]

/-- Byte image of a whole packer body. -/
def tbfBytes (pk : List OutTok) : List Nat := pk.flatMap tbfTokBytes

/-!
### Error taxonomy

Modelled from the spec: the enum `siridb_insert_err_t` lives in the header
`siri/db/insert.h`, which is not among the sources; spec §7 states that all
decode error codes are distinct negative integers, and the `switch` in
`siridb_insert_err_msg` fixes their order (consecutive values starting
at -9).
-/

def ERR_EXPECTING_ARRAY : Int := -9
def ERR_EXPECTING_SERIES_NAME : Int := -8
def ERR_EXPECTING_MAP_OR_ARRAY : Int := -7
def ERR_EXPECTING_INTEGER_TS : Int := -6
def ERR_TIMESTAMP_OUT_OF_RANGE : Int := -5
def ERR_UNSUPPORTED_VALUE : Int := -4
def ERR_EXPECTING_AT_LEAST_ONE_POINT : Int := -3
def ERR_EXPECTING_NAME_AND_POINTS : Int := -2
def ERR_MEM_ALLOC : Int := -1

/-- The nine decode error codes, in the order of the taxonomy table (§7). -/
def insertErrCodes : List Int :=
  [ERR_EXPECTING_ARRAY, ERR_EXPECTING_SERIES_NAME, ERR_EXPECTING_MAP_OR_ARRAY,
   ERR_EXPECTING_INTEGER_TS, ERR_TIMESTAMP_OUT_OF_RANGE, ERR_UNSUPPORTED_VALUE,
   ERR_EXPECTING_AT_LEAST_ONE_POINT, ERR_EXPECTING_NAME_AND_POINTS,
   ERR_MEM_ALLOC]

/-- Modelled from the spec: `SIRIDB_SERIES_NAME_LEN_MAX` is a compile-time
constant bounding series-name length (its header is not in the sources; the
exact value matters to nothing proved here). -/
def SIRIDB_SERIES_NAME_LEN_MAX : Nat := 65535

/-- Modelled from the spec: `SIRIDB_FLAG_REINDEXING` is one bit of the
`siridb->flags` bit set (siridb.h is not in the sources; any fixed bit
works). -/
def SIRIDB_FLAG_REINDEXING : Nat := 4

/-- The slice of `siridb_t` state read by routing and decoding: `flags` is
the `SIRIDB_FLAG_*` bit set; `hasSeries` is membership in the live series
index (`ct_getn`); `lookup` and `prevLookup` are `siridb_lookup_sn_raw` on
`pools->lookup` and `pools->prev_lookup`; `ownPool` is `server->pool`;
`validTs` is `siridb_int64_valid_ts`. -/
structure SiriState where
  flags : Nat
  hasSeries : Bytes → Bool
  lookup : Bytes → Nat
  prevLookup : Bytes → Nat
  ownPool : Nat
  validTs : Int → Bool

/-- Embedding of `INSERT_get_pool` (insert.c:748-800): route a series name to
a pool, consulting the previous lookup table while re-indexing. -/
def INSERT_get_pool (st : SiriState) (name : Bytes) : Nat :=
  if st.flags &&& SIRIDB_FLAG_REINDEXING = 0 then
    st.lookup name
  else if st.hasSeries name then
    st.ownPool
  else
    let pool := st.prevLookup name
    if pool = st.ownPool then st.lookup name else pool

/-!
### C string comparison of qpack keys

`INSERT_assign_by_array` (and the admin handlers) compare a key `k` against a
literal `lit` with `strncmp(k, lit, k_len) == 0`, where `k_len` is the key's
own length.  `strncmp` stops at a difference, after `n` characters, or at a
null byte in either argument; the literal carries its terminating null.
-/

/-- Model of `strncmp(raw, lit0, raw.length) == 0` where `lit0` is the literal
including its terminating zero byte, recursing over at most `raw.length`
characters. -/
def strncmpZero : Bytes → Bytes → Bool
  | [], _ => true
  | _ :: _, [] => false
  | r :: rs, l :: ls =>
      if l = 0 then decide (r = 0)
      else if r = l then strncmpZero rs ls
      else false

/-- Key comparison as the C code performs it:
`strncmp(key, lit, key_len) == 0` with `lit` a null-terminated literal. -/
def keyMatches (key lit : Bytes) : Bool := strncmpZero key (lit ++ [0])

/-- The bytes of the literal "points". -/
def pointsLit : Bytes := [112, 111, 105, 110, 116, 115]

/-- The bytes of the literal "name". -/
def nameLit : Bytes := [110, 97, 109, 101]

/-!
### INSERT_read_points
-/

/-- The value `switch` inside `INSERT_read_points`: QP_RAW, QP_INT64 and
QP_DOUBLE are repacked; anything else is `ERR_UNSUPPORTED_VALUE` (`none`). -/
def valOut : QpTok → Option OutTok
  | QpTok.raw s => some (OutTok.raw s)
  | QpTok.int64 i => some (OutTok.int64 i)
  | QpTok.double d => some (OutTok.double d)
  | _ => none

/-- The `for` loop of `INSERT_read_points` (insert.c:971-1008), entered just
after a QP_ARRAY2 marker has been read.  Each pass checks the timestamp is an
in-range integer, appends `ARRAY2, ts, value` to the packer, bumps the count,
then reads the next token and loops while it is QP_ARRAY2.  On exit it hands
back the lookahead token (the C code returns it and leaves it in `qp_obj`),
the rest of the stream, the packer and the count. -/
def rpLoop (validTs : Int → Bool) :
    List QpTok → List OutTok → Int →
    Except Int (QpTok × List QpTok × List OutTok × Int)
  | QpTok.int64 ts :: v :: QpTok.array2 :: s3, pk, count =>
      if validTs ts then
        match valOut v with
        | some ov =>
            rpLoop validTs s3
              (pk ++ [OutTok.array2, OutTok.int64 ts, ov]) (count + 1)
        | none => Except.error ERR_UNSUPPORTED_VALUE
      else Except.error ERR_TIMESTAMP_OUT_OF_RANGE
  | QpTok.int64 ts :: v :: t :: s3, pk, count =>
      if validTs ts then
        match valOut v with
        | some ov =>
            Except.ok (t, s3,
              pk ++ [OutTok.array2, OutTok.int64 ts, ov], count + 1)
        | none => Except.error ERR_UNSUPPORTED_VALUE
      else Except.error ERR_TIMESTAMP_OUT_OF_RANGE
  | [QpTok.int64 ts, v], pk, count =>
      if validTs ts then
        match valOut v with
        | some ov =>
            Except.ok (QpTok.endTok, [],
              pk ++ [OutTok.array2, OutTok.int64 ts, ov], count + 1)
        | none => Except.error ERR_UNSUPPORTED_VALUE
      else Except.error ERR_TIMESTAMP_OUT_OF_RANGE
  | [QpTok.int64 ts], _, _ =>
      if validTs ts then Except.error ERR_UNSUPPORTED_VALUE
      else Except.error ERR_TIMESTAMP_OUT_OF_RANGE
  | _, _, _ => Except.error ERR_EXPECTING_INTEGER_TS

/-- Embedding of `INSERT_read_points` (insert.c:950-1018).  On success the
result carries the lookahead token read past the points array, the remaining
stream, the grown packer and the grown count; on failure the negative error
code. -/
def INSERT_read_points (validTs : Int → Bool) (pk : List OutTok)
    (s : List QpTok) (count : Int) :
    Except Int (QpTok × List QpTok × List OutTok × Int) :=
  let n1 := qp_next s
  if qp_is_array n1.fst then
    match n1.snd with
    | QpTok.array2 :: s2 =>
        match rpLoop validTs s2 (pk ++ [OutTok.array_open]) count with
        | Except.error e => Except.error e
        | Except.ok (tp, s3, pk2, c2) =>
            let r := if tp = QpTok.array_close then qp_next s3 else (tp, s3)
            Except.ok (r.fst, r.snd, pk2 ++ [OutTok.array_close], c2)
    | _ => Except.error ERR_EXPECTING_AT_LEAST_ONE_POINT
  else Except.error ERR_EXPECTING_ARRAY

theorem rpLoop_length {validTs : Int → Bool} :
    ∀ {s : List QpTok} {pk : List OutTok} {count : Int}
      {tp : QpTok} {s2 : List QpTok} {pk2 : List OutTok} {c2 : Int},
      rpLoop validTs s pk count = Except.ok (tp, s2, pk2, c2) →
      s2.length < s.length := by
  intro s pk count
  induction s, pk, count using rpLoop.induct validTs with
  | case1 ts v s3 pk count hv ov hov ih =>
      intro tp s2 pk2 c2 h
      simp only [rpLoop, if_pos hv, hov] at h
      have := ih h
      simp only [List.length_cons]; omega
  | case2 ts v s3 pk count hv hov =>
      intro tp s2 pk2 c2 h
      simp only [rpLoop, if_pos hv, hov] at h
      exact absurd h (by simp)
  | case3 ts v s3 pk count hv =>
      intro tp s2 pk2 c2 h
      simp only [rpLoop, if_neg hv] at h
      exact absurd h (by simp)
  | case4 ts v t s3 pk count hne hv ov hov =>
      intro tp s2 pk2 c2 h
      simp only [rpLoop, if_pos hv, hov] at h
      cases h
      simp only [List.length_cons]; omega
  | case5 ts v t s3 pk count hne hv hov =>
      intro tp s2 pk2 c2 h
      simp only [rpLoop, if_pos hv, hov] at h
      exact absurd h (by simp)
  | case6 ts v t s3 pk count hne hv =>
      intro tp s2 pk2 c2 h
      simp only [rpLoop, if_neg hv] at h
      exact absurd h (by simp)
  | case7 ts v pk count hv ov hov =>
      intro tp s2 pk2 c2 h
      simp only [rpLoop, if_pos hv, hov] at h
      cases h
      simp only [List.length_cons, List.length_nil]; omega
  | case8 ts v pk count hv hov =>
      intro tp s2 pk2 c2 h
      simp only [rpLoop, if_pos hv, hov] at h
      exact absurd h (by simp)
  | case9 ts v pk count hv =>
      intro tp s2 pk2 c2 h
      simp only [rpLoop, if_neg hv] at h
      exact absurd h (by simp)
  | case10 ts pk count hv =>
      intro tp s2 pk2 c2 h
      simp only [rpLoop, if_pos hv] at h
      exact absurd h (by simp)
  | case11 ts pk count hv =>
      intro tp s2 pk2 c2 h
      simp only [rpLoop, if_neg hv] at h
      exact absurd h (by simp)
  | case12 s pk count h1 h2 h3 h4 =>
      intro tp s2 pk2 c2 h
      rw [rpLoop.eq_def] at h
      split at h
      · exact (h1 _ _ _ rfl).elim
      · split at h
        · split at h
          · cases h; simp only [List.length_cons]; omega
          · exact absurd h (by simp)
        · exact absurd h (by simp)
      · split at h
        · split at h
          · cases h; simp only [List.length_cons, List.length_nil]; omega
          · exact absurd h (by simp)
        · exact absurd h (by simp)
      · split at h <;> exact absurd h (by simp)
      · exact absurd h (by simp)

theorem INSERT_read_points_length {validTs : Int → Bool} {pk : List OutTok}
    {s : List QpTok} {count : Int} {tp : QpTok} {s2 : List QpTok}
    {pk2 : List OutTok} {c2 : Int}
    (h : INSERT_read_points validTs pk s count = Except.ok (tp, s2, pk2, c2)) :
    s2.length < s.length := by
  cases s with
  | nil => simp [INSERT_read_points, qp_next, qp_is_array] at h
  | cons t ts =>
      simp only [INSERT_read_points, qp_next] at h
      split at h
      · split at h
        · split at h
          · exact absurd h (by simp)
          · rename_i tp1 s3 pk3 c3 heq
            have hlt := rpLoop_length heq
            cases h
            simp only [List.length_cons] at hlt ⊢
            split
            · cases s3 with
              | nil => simp
              | cons u us =>
                  simp only [List.length_cons] at hlt ⊢
                  simp
                  omega
            · simp only []
              omega
        · exact absurd h (by simp)
      · exact absurd h (by simp)

theorem qp_next_snd_length (s : List QpTok) : (qp_next s).snd.length ≤ s.length := by
  cases s <;> simp [qp_next]

theorem qp_next_raw_length {s : List QpTok} {k : Bytes} {s1 : List QpTok}
    (h : qp_next s = (QpTok.raw k, s1)) : s1.length < s.length := by
  cases s with
  | nil => simp [qp_next] at h
  | cons t ts =>
      simp only [qp_next, Prod.mk.injEq] at h
      rw [← h.2]
      simp

/-!
### The per-pool packers and the two assign functions
-/

/-- Read one pool's packer out of the per-pool packer array
(`packer[pool]`). -/
def pkGet (pks : List (List OutTok)) (pool : Nat) : List OutTok :=
  pks.getD pool []

/-- The `while` loop of `INSERT_assign_by_map` (insert.c:821-840), taking the
token just read (the C code keeps it in `tp`/`qp_obj`).  Each pass routes the
series name, appends the terminated name to that pool's packer, streams the
points into it via `INSERT_read_points`, and continues on the lookahead.  The
post-loop check (insert.c:842-845) is folded into the exit cases. -/
def abmLoop (st : SiriState) :
    QpTok → List QpTok → List (List OutTok) → Int →
    Except Int (List (List OutTok) × Int)
  | QpTok.raw name, s, pks, count =>
      if 0 < name.length ∧ name.length < SIRIDB_SERIES_NAME_LEN_MAX then
        let pool := INSERT_get_pool st name
        match h : INSERT_read_points st.validTs
            (pkGet pks pool ++ [OutTok.raw_term name]) s count with
        | Except.error e => Except.error e
        | Except.ok (tp, s2, pk2, c2) =>
            abmLoop st tp s2 (pks.set pool pk2) c2
      else Except.error ERR_EXPECTING_SERIES_NAME
  | tp, _, pks, count =>
      if tp = QpTok.endTok ∨ tp = QpTok.map_close then Except.ok (pks, count)
      else Except.error ERR_EXPECTING_SERIES_NAME
termination_by _ s _ _ => s.length
decreasing_by exact INSERT_read_points_length h

/-- Embedding of `INSERT_assign_by_map` (insert.c:809-848). -/
def INSERT_assign_by_map (st : SiriState) (s : List QpTok)
    (pks : List (List OutTok)) : Except Int (List (List OutTok) × Int) :=
  abmLoop st (qp_next s).fst (qp_next s).snd pks 0

/-- The `while` loop of `INSERT_assign_by_array` (insert.c:869-933), taking
the token just read.  Each QP_MAP2 element carries its two keys in either
order; the first `strncmp` guard may stream the points into the scratch
packer `tmp` first (in which case the lookahead key is the one tested for
"name"), and after the name resolves to a pool a non-empty scratch packer is
flushed into that pool's packer, else the points are streamed into it
directly.  The name continuation is written out once per branch of the
points guard; it is the same code both times, exactly as the straight-line C
is reached with `qp_obj` holding either the first or the lookahead key. -/
def abaLoop (st : SiriState) :
    QpTok → List QpTok → List (List OutTok) → List OutTok → Int →
    Except Int (List (List OutTok) × Int)
  | QpTok.map2, s, pks, tmp, count =>
      (match hq : qp_next s with
      | (QpTok.raw key, s1) =>
          if keyMatches key pointsLit then
            match h1 : INSERT_read_points st.validTs tmp s1 count with
            | Except.error e => Except.error e
            | Except.ok (QpTok.raw key2, s2, tmp2, c2) =>
                if keyMatches key2 nameLit then
                  match s2 with
                  | QpTok.raw name :: s3 =>
                      if 0 < name.length ∧
                          name.length < SIRIDB_SERIES_NAME_LEN_MAX then
                        let pool := INSERT_get_pool st name
                        let pks2 := pks.set pool
                            (pkGet pks pool ++ [OutTok.raw_term name])
                        if tmp2 ≠ [] then
                          abaLoop st (qp_next s3).fst (qp_next s3).snd
                            (pks2.set pool (pkGet pks2 pool ++ tmp2)) [] c2
                        else
                          match s3 with
                          | QpTok.raw key3 :: s4 =>
                              if keyMatches key3 pointsLit then
                                match h2 : INSERT_read_points st.validTs
                                    (pkGet pks2 pool) s4 c2 with
                                | Except.error e => Except.error e
                                | Except.ok (tp2, s5, pk2, c3) =>
                                    abaLoop st tp2 s5
                                      (pks2.set pool pk2) tmp2 c3
                              else Except.error ERR_EXPECTING_NAME_AND_POINTS
                          | _ => Except.error ERR_EXPECTING_NAME_AND_POINTS
                      else Except.error ERR_EXPECTING_NAME_AND_POINTS
                  | _ => Except.error ERR_EXPECTING_NAME_AND_POINTS
                else Except.error ERR_EXPECTING_NAME_AND_POINTS
            | Except.ok _ => Except.error ERR_EXPECTING_NAME_AND_POINTS
          else
            if keyMatches key nameLit then
              match s1 with
              | QpTok.raw name :: s3 =>
                  if 0 < name.length ∧
                      name.length < SIRIDB_SERIES_NAME_LEN_MAX then
                    let pool := INSERT_get_pool st name
                    let pks2 := pks.set pool
                        (pkGet pks pool ++ [OutTok.raw_term name])
                    if tmp ≠ [] then
                      abaLoop st (qp_next s3).fst (qp_next s3).snd
                        (pks2.set pool (pkGet pks2 pool ++ tmp)) [] count
                    else
                      match s3 with
                      | QpTok.raw key3 :: s4 =>
                          if keyMatches key3 pointsLit then
                            match h2 : INSERT_read_points st.validTs
                                (pkGet pks2 pool) s4 count with
                            | Except.error e => Except.error e
                            | Except.ok (tp2, s5, pk2, c3) =>
                                abaLoop st tp2 s5 (pks2.set pool pk2) tmp c3
                          else Except.error ERR_EXPECTING_NAME_AND_POINTS
                      | _ => Except.error ERR_EXPECTING_NAME_AND_POINTS
                  else Except.error ERR_EXPECTING_NAME_AND_POINTS
              | _ => Except.error ERR_EXPECTING_NAME_AND_POINTS
            else Except.error ERR_EXPECTING_NAME_AND_POINTS
      | (_, _) => Except.error ERR_EXPECTING_NAME_AND_POINTS)
  | tp, _, pks, _, count =>
      if tp = QpTok.endTok ∨ tp = QpTok.array_close then Except.ok (pks, count)
      else Except.error ERR_EXPECTING_SERIES_NAME
termination_by _ s _ _ _ => s.length
decreasing_by
  · have a1 := qp_next_raw_length hq
    have a2 := INSERT_read_points_length h1
    have a3 := qp_next_snd_length s3
    simp only [List.length_cons] at a2
    omega
  · have a1 := qp_next_raw_length hq
    have a2 := INSERT_read_points_length h1
    have a3 := INSERT_read_points_length h2
    simp only [List.length_cons] at a2
    omega
  · have a1 := qp_next_raw_length hq
    have a3 := qp_next_snd_length s3
    simp only [List.length_cons] at a1
    omega
  · have a1 := qp_next_raw_length hq
    have a3 := INSERT_read_points_length h2
    simp only [List.length_cons] at a1
    omega

/-- Embedding of `INSERT_assign_by_array` (insert.c:857-941). -/
def INSERT_assign_by_array (st : SiriState) (s : List QpTok)
    (pks : List (List OutTok)) (tmp : List OutTok) :
    Except Int (List (List OutTok) × Int) :=
  abaLoop st (qp_next s).fst (qp_next s).snd pks tmp 0

/-- Embedding of `siridb_insert_assign_pools` (insert.c:121-155): dispatch on
the top-level container type.  The array form allocates a fresh (empty)
scratch packer; the allocation-failure (`siri_err`) path is not modelled, as
the model has no failing allocator. -/
def siridb_insert_assign_pools (st : SiriState) (s : List QpTok)
    (pks : List (List OutTok)) : Except Int (List (List OutTok) × Int) :=
  match qp_next s with
  | (t, s1) =>
      if qp_is_map t then INSERT_assign_by_map st s1 pks
      else if qp_is_array t then INSERT_assign_by_array st s1 pks []
      else Except.error ERR_EXPECTING_MAP_OR_ARRAY

/-!
### Well-formed batches and their two wire encodings

A batch is a list of series, each a name with a list of points; the map form
and the array form of the same batch are encoded below exactly as the wire
grammar of §6 describes them.
-/

/-- Point values the wire supports (integer, double, raw).  A double is
carried as its 64-bit pattern; the decoder only copies it. -/
inductive QVal where
  | vraw (s : Bytes)
  | vint (i : Int)
  | vdbl (d : Nat)
  deriving DecidableEq, Repr

/-- One point: a timestamp with a value. -/
structure QPoint where
  ts : Int
  val : QVal
  deriving DecidableEq, Repr

/-- One series of a batch. -/
structure QSeries where
  name : Bytes
  points : List QPoint
  deriving DecidableEq, Repr

/-- Input token of a value. -/
def valTok : QVal → QpTok
  | QVal.vraw s => QpTok.raw s
  | QVal.vint i => QpTok.int64 i
  | QVal.vdbl d => QpTok.double d

/-- Output token the repacker emits for a value. -/
def valOutTok : QVal → OutTok
  | QVal.vraw s => OutTok.raw s
  | QVal.vint i => OutTok.int64 i
  | QVal.vdbl d => OutTok.double d

/-- Wire encoding of one point. -/
def encPoint (p : QPoint) : List QpTok :=
  [QpTok.array2, QpTok.int64 p.ts, valTok p.val]

/-- Wire encoding of a points array. -/
def encPoints (ps : List QPoint) : List QpTok :=
  QpTok.array_open :: (ps.flatMap encPoint ++ [QpTok.array_close])

/-- Wire encoding of one map-form entry. -/
def encMapEntry (e : QSeries) : List QpTok :=
  QpTok.raw e.name :: encPoints e.points

/-- Wire encoding of the whole batch in map form. -/
def encMap (B : List QSeries) : List QpTok :=
  QpTok.map_open :: (B.flatMap encMapEntry ++ [QpTok.map_close])

/-- Wire encoding of one array-form element; the flag picks the key order
(`true` puts the points key before the name key). -/
def encArrElem : Bool × QSeries → List QpTok
  | (false, e) =>
      QpTok.map2 :: QpTok.raw nameLit :: QpTok.raw e.name ::
        QpTok.raw pointsLit :: encPoints e.points
  | (true, e) =>
      QpTok.map2 :: QpTok.raw pointsLit ::
        (encPoints e.points ++ [QpTok.raw nameLit, QpTok.raw e.name])

/-- Wire encoding of the whole batch in array form, with a key order chosen
per element. -/
def encArray (L : List (Bool × QSeries)) : List QpTok :=
  QpTok.array_open :: (L.flatMap encArrElem ++ [QpTok.array_close])

/-- Repacker output for one point. -/
def outPoint (p : QPoint) : List OutTok :=
  [OutTok.array2, OutTok.int64 p.ts, valOutTok p.val]

/-- Repacker output for one series: the terminated name followed by the
framed points. -/
def outSeries (e : QSeries) : List OutTok :=
  OutTok.raw_term e.name ::
    OutTok.array_open :: (e.points.flatMap outPoint ++ [OutTok.array_close])

/-- Well-formedness of one series of a batch: legal name length, at least
one point, all timestamps in range. -/
def wfSeries (st : SiriState) (e : QSeries) : Prop :=
  0 < e.name.length ∧ e.name.length < SIRIDB_SERIES_NAME_LEN_MAX ∧
    e.points ≠ [] ∧ ∀ p ∈ e.points, st.validTs p.ts = true

/-- Reference assignment: route every series to its pool and append its
repacked form there, summing the point count. -/
def assignRef (st : SiriState) :
    List QSeries → List (List OutTok) → Int → List (List OutTok) × Int
  | [], pks, count => (pks, count)
  | e :: B, pks, count =>
      let pool := INSERT_get_pool st e.name
      assignRef st B (pks.set pool (pkGet pks pool ++ outSeries e))
        (count + (e.points.length : Int))

theorem valOut_valTok (v : QVal) : valOut (valTok v) = some (valOutTok v) := by
  cases v <;> rfl

theorem rpLoop_enc {validTs : Int → Bool} (ps : List QPoint) :
    ∀ (p : QPoint) (rest : List QpTok) (pk : List OutTok) (count : Int),
      validTs p.ts = true → (∀ q ∈ ps, validTs q.ts = true) →
      rpLoop validTs
        (QpTok.int64 p.ts :: valTok p.val ::
          (ps.flatMap encPoint ++ QpTok.array_close :: rest)) pk count
        = Except.ok (QpTok.array_close, rest,
            pk ++ (p :: ps).flatMap outPoint, count + (1 + ps.length)) := by
  induction ps with
  | nil =>
      intro p rest pk count hp _
      simp [rpLoop, valOut_valTok, outPoint, hp]
  | cons q qs ih =>
      intro p rest pk count hp hq
      have hstream :
          QpTok.int64 p.ts :: valTok p.val ::
            ((q :: qs).flatMap encPoint ++ QpTok.array_close :: rest)
          = QpTok.int64 p.ts :: valTok p.val :: QpTok.array2 ::
            (QpTok.int64 q.ts :: valTok q.val ::
              (qs.flatMap encPoint ++ QpTok.array_close :: rest)) := by
        simp [encPoint]
      rw [hstream, rpLoop, if_pos hp, valOut_valTok]
      simp only [ih q rest
          (pk ++ [OutTok.array2, OutTok.int64 p.ts, valOutTok p.val])
          (count + 1) (hq q (by simp)) (fun r hr => hq r (by simp [hr]))]
      simp [outPoint]
      omega

theorem INSERT_read_points_enc {validTs : Int → Bool} (p : QPoint)
    (ps : List QPoint) (rest : List QpTok) (pk : List OutTok) (count : Int)
    (hp : validTs p.ts = true) (hps : ∀ q ∈ ps, validTs q.ts = true) :
    INSERT_read_points validTs pk (encPoints (p :: ps) ++ rest) count
      = Except.ok ((qp_next rest).fst, (qp_next rest).snd,
          pk ++ (OutTok.array_open ::
            ((p :: ps).flatMap outPoint ++ [OutTok.array_close])),
          count + (1 + ps.length)) := by
  have hstream : encPoints (p :: ps) ++ rest
      = QpTok.array_open :: QpTok.array2 ::
        (QpTok.int64 p.ts :: valTok p.val ::
          (ps.flatMap encPoint ++ QpTok.array_close :: rest)) := by
    simp [encPoints, encPoint]
  rw [hstream]
  simp only [INSERT_read_points, qp_next, qp_is_array, if_true]
  simp only [rpLoop_enc ps p rest (pk ++ [OutTok.array_open]) count hp hps]
  simp [List.append_assoc]

theorem abmLoop_enc (st : SiriState) (B : List QSeries) :
    ∀ (pks : List (List OutTok)) (count : Int),
      (∀ e ∈ B, wfSeries st e) →
      abmLoop st (qp_next (B.flatMap encMapEntry ++ [QpTok.map_close])).fst
          (qp_next (B.flatMap encMapEntry ++ [QpTok.map_close])).snd pks count
        = Except.ok (assignRef st B pks count) := by
  induction B with
  | nil =>
      intro pks count _
      simp [qp_next, abmLoop, assignRef]
  | cons e B ih =>
      intro pks count hwf
      obtain ⟨hn1, hn2, hne, hts⟩ := hwf e (by simp)
      obtain ⟨p, ps, hpts⟩ : ∃ p ps, e.points = p :: ps := by
        cases hpe : e.points with
        | nil => exact absurd hpe hne
        | cons p ps => exact ⟨p, ps, rfl⟩
      have hread := @INSERT_read_points_enc st.validTs p ps
        (B.flatMap encMapEntry ++ [QpTok.map_close])
        (pkGet pks (INSERT_get_pool st e.name) ++ [OutTok.raw_term e.name])
        count
        (hts p (by rw [hpts]; simp))
        (fun q hqq => hts q (by rw [hpts]; simp [hqq]))
      have hstream : (e :: B).flatMap encMapEntry ++ [QpTok.map_close]
          = QpTok.raw e.name ::
            (encPoints e.points ++
              (B.flatMap encMapEntry ++ [QpTok.map_close])) := by
        simp [encMapEntry]
      rw [hstream]
      simp only [qp_next]
      rw [hpts]
      simp only [abmLoop]
      split
      · split
        · rename_i e' herr
          rw [hread] at herr
          exact absurd herr (by simp)
        · rename_i tp s2 pk2 c2 hok
          rw [hread] at hok
          simp only [Except.ok.injEq, Prod.mk.injEq] at hok
          obtain ⟨h1, h2, h3, h4⟩ := hok
          subst h1 h2 h3 h4
          rw [ih _ _ (fun x hx => hwf x (by simp [hx]))]
          have hcnt : count + (1 + (ps.length : Int))
              = count + (e.points.length : Int) := by
            rw [hpts]; simp; omega
          have hpk : (pkGet pks (INSERT_get_pool st e.name) ++
                [OutTok.raw_term e.name]) ++
              (OutTok.array_open ::
                ((p :: ps).flatMap outPoint ++ [OutTok.array_close]))
              = pkGet pks (INSERT_get_pool st e.name) ++ outSeries e := by
            simp [outSeries, hpts, List.append_assoc]
          rw [hcnt, hpk]
          simp only [assignRef]
      · rename_i hcond
        exact absurd ⟨hn1, hn2⟩ hcond

theorem keyMatches_points_points : keyMatches pointsLit pointsLit = true := by
  decide

theorem keyMatches_name_name : keyMatches nameLit nameLit = true := by decide

theorem keyMatches_name_points : keyMatches nameLit pointsLit = false := by
  decide

theorem keyMatches_points_name : keyMatches pointsLit nameLit = false := by
  decide

theorem pkGet_set_self (pks : List (List OutTok)) (n : Nat) (x : List OutTok)
    (h : n < pks.length) : pkGet (pks.set n x) n = x := by
  simp [pkGet, List.getD_eq_getElem?_getD, List.getElem?_set_self, h]

theorem abaLoop_enc (st : SiriState) (L : List (Bool × QSeries)) :
    ∀ (pks : List (List OutTok)) (count : Int),
      (∀ be ∈ L, wfSeries st be.snd) →
      (∀ be ∈ L, INSERT_get_pool st be.snd.name < pks.length) →
      abaLoop st
          (qp_next (L.flatMap encArrElem ++ [QpTok.array_close])).fst
          (qp_next (L.flatMap encArrElem ++ [QpTok.array_close])).snd
          pks [] count
        = Except.ok (assignRef st (L.map Prod.snd) pks count) := by
  induction L with
  | nil =>
      intro pks count _ _
      simp [qp_next, abaLoop, assignRef]
  | cons be L ih =>
      obtain ⟨b, e⟩ := be
      intro pks count hwf hpool
      obtain ⟨hn1, hn2, hne, hts⟩ := hwf (b, e) (by simp)
      obtain ⟨p, ps, hpts⟩ : ∃ p ps, e.points = p :: ps := by
        cases hpe : e.points with
        | nil => exact absurd hpe hne
        | cons p ps => exact ⟨p, ps, rfl⟩
      have hpl : INSERT_get_pool st e.name < pks.length :=
        hpool (b, e) (by simp)
      have hwfL : ∀ be ∈ L, wfSeries st be.snd :=
        fun x hx => hwf x (by simp [hx])
      have hplL : ∀ be ∈ L,
          INSERT_get_pool st be.snd.name <
            (pks.set (INSERT_get_pool st e.name)
              (pkGet pks (INSERT_get_pool st e.name) ++ outSeries e)).length :=
        fun x hx => by
          rw [List.length_set]
          exact hpool x (by simp [hx])
      cases b with
      | false =>
          have hread := @INSERT_read_points_enc st.validTs p ps
            (L.flatMap encArrElem ++ [QpTok.array_close])
            (pkGet
              (pks.set (INSERT_get_pool st e.name)
                (pkGet pks (INSERT_get_pool st e.name) ++
                  [OutTok.raw_term e.name]))
              (INSERT_get_pool st e.name))
            count
            (hts p (by rw [hpts]; simp))
            (fun q hqq => hts q (by rw [hpts]; simp [hqq]))
          have hstream :
              ((false, e) :: L).flatMap encArrElem ++ [QpTok.array_close]
              = QpTok.map2 :: QpTok.raw nameLit :: QpTok.raw e.name ::
                  QpTok.raw pointsLit ::
                  (encPoints e.points ++
                    (L.flatMap encArrElem ++ [QpTok.array_close])) := by
            simp [encArrElem]
          rw [hstream]
          simp only [qp_next]
          rw [hpts]
          simp only [abaLoop, qp_next, keyMatches_name_points,
            keyMatches_name_name, keyMatches_points_points, Bool.false_eq_true,
            if_false, if_true]
          split
          · split
            · rename_i habs
              exact absurd habs (by simp)
            · split
              · rename_i e' herr
                rw [hread] at herr
                exact absurd herr (by simp)
              · rename_i tp2 s5 pk2 c3 hok
                rw [hread] at hok
                simp only [Except.ok.injEq, Prod.mk.injEq] at hok
                obtain ⟨h1, h2, h3, h4⟩ := hok
                subst h1 h2 h3 h4
                rw [List.set_set]
                have hpk :
                    (pkGet
                        (pks.set (INSERT_get_pool st e.name)
                          (pkGet pks (INSERT_get_pool st e.name) ++
                            [OutTok.raw_term e.name]))
                        (INSERT_get_pool st e.name)) ++
                      (OutTok.array_open ::
                        ((p :: ps).flatMap outPoint ++ [OutTok.array_close]))
                    = pkGet pks (INSERT_get_pool st e.name) ++ outSeries e := by
                  rw [pkGet_set_self _ _ _ hpl]
                  simp [outSeries, hpts, List.append_assoc]
                rw [hpk]
                have hcnt : count + (1 + (ps.length : Int))
                    = count + (e.points.length : Int) := by
                  rw [hpts]; simp; omega
                rw [hcnt]
                rw [ih _ _ hwfL hplL]
                simp only [List.map_cons, assignRef]
          · rename_i hcond
            exact absurd ⟨hn1, hn2⟩ hcond
      | true =>
          have hread := @INSERT_read_points_enc st.validTs p ps
            (QpTok.raw nameLit :: QpTok.raw e.name ::
              (L.flatMap encArrElem ++ [QpTok.array_close]))
            [] count
            (hts p (by rw [hpts]; simp))
            (fun q hqq => hts q (by rw [hpts]; simp [hqq]))
          have hstream :
              ((true, e) :: L).flatMap encArrElem ++ [QpTok.array_close]
              = QpTok.map2 :: QpTok.raw pointsLit ::
                  (encPoints e.points ++
                    (QpTok.raw nameLit :: QpTok.raw e.name ::
                      (L.flatMap encArrElem ++ [QpTok.array_close]))) := by
            simp [encArrElem]
          rw [hstream]
          simp only [qp_next]
          rw [hpts]
          simp only [abaLoop, qp_next, keyMatches_points_points,
            keyMatches_name_name, if_true]
          split
          · rename_i e' herr
            rw [hread] at herr
            exact absurd herr (by simp)
          · rename_i key2 s2 tmp2 c2 hok
            rw [hread] at hok
            simp only [Except.ok.injEq, Prod.mk.injEq, qp_next] at hok
            obtain ⟨h1, h2, h3, h4⟩ := hok
            subst h2 h3 h4
            cases h1
            simp only [keyMatches_name_name, if_true]
            split
            · split
              · rw [List.set_set]
                have hpk :
                    (pkGet
                        (pks.set (INSERT_get_pool st e.name)
                          (pkGet pks (INSERT_get_pool st e.name) ++
                            [OutTok.raw_term e.name]))
                        (INSERT_get_pool st e.name)) ++
                      ([] ++
                        (OutTok.array_open ::
                          ((p :: ps).flatMap outPoint ++
                            [OutTok.array_close])))
                    = pkGet pks (INSERT_get_pool st e.name) ++ outSeries e := by
                  rw [pkGet_set_self _ _ _ hpl]
                  simp [outSeries, hpts, List.append_assoc]
                rw [hpk]
                have hcnt : count + (1 + (ps.length : Int))
                    = count + (e.points.length : Int) := by
                  rw [hpts]; simp; omega
                rw [hcnt]
                have ihm := ih
                  (pks.set (INSERT_get_pool st e.name)
                    (pkGet pks (INSERT_get_pool st e.name) ++ outSeries e))
                  (count + (e.points.length : Int)) hwfL hplL
                simp only [qp_next] at ihm
                rw [ihm]
                simp only [List.map_cons, assignRef]
              · rename_i hne2
                simp at hne2
            · rename_i hcond
              exact absurd ⟨hn1, hn2⟩ hcond
          · rename_i a hx heq
            rw [hread] at heq
            simp only [Except.ok.injEq] at heq
            subst heq
            exact (hx nameLit
              (QpTok.raw e.name ::
                (L.flatMap encArrElem ++ [QpTok.array_close]))
              (OutTok.array_open ::
                ((p :: ps).flatMap outPoint ++ [OutTok.array_close]))
              (count + (1 + ps.length)) (by simp [qp_next])).elim

/-!
### The insert job and the dispatch task
-/

/-- Modelled from the spec: the insert-job flag bits `INSERT_FLAG_TEST` and
`INSERT_FLAG_TESTED` (insert.h is not in the sources; any two distinct bits
work). -/
def INSERT_FLAG_TEST : Nat := 1

/-- Modelled from the spec: see `INSERT_FLAG_TEST`. -/
def INSERT_FLAG_TESTED : Nat := 2

/-- Modelled from the spec: the fixed packet header size that
`sirinet_packer_new` reserves in front of the body (the sirinet headers are
not in the sources; the dispatcher's empty test compares `packer->len`
against this plus one byte for QP_MAP_OPEN). -/
def PKG_HEADER_SIZE : Nat := 12

/-- Byte length of a packer as `packer->len` reports it: reserved header
plus encoded body. -/
def packerLen (pk : List OutTok) : Nat :=
  PKG_HEADER_SIZE + (tbfBytes pk).length

/-- Embedding of `siridb_insert_t`: the fields the insert path reads and
writes.  `packer_size` is the number of per-pool packers, recorded once at
creation; `packer` is the trailing array of packers. -/
structure InsertJob where
  flags : Nat
  npoints : Int
  pid : Nat
  packer_size : Nat
  packer : List (List OutTok)
  deriving DecidableEq, Repr

/-- Embedding of `siridb_insert_new` (insert.c:160-212): record the pool
count of this moment as `packer_size`, allocate that many packers and seed
each with QP_MAP_OPEN; the job starts flagged `INSERT_FLAG_TEST` iff the
database is re-indexing. -/
def siridb_insert_new (siridbFlags : Nat) (poolsLen : Nat) (pid : Nat) :
    InsertJob :=
  { flags := if siridbFlags &&& SIRIDB_FLAG_REINDEXING ≠ 0 then
      INSERT_FLAG_TEST else 0
    npoints := 0
    pid := pid
    packer_size := poolsLen
    packer := List.replicate poolsLen [OutTok.map_open] }

/-- Embedding of `siridb_insert_points_to_pools` (insert.c:219-239): bind
the decoded point count to the job.  Locking the client and posting the
async task carry no model state. -/
def siridb_insert_points_to_pools (insert : InsertJob) (npoints : Int) :
    InsertJob :=
  { insert with npoints := npoints }

/-- Embedding of `siridb_insert_free` (insert.c:94-111): the packer slots
visited by the freeing loop, in order — exactly `packer_size` of them. -/
def siridb_insert_free (insert : InsertJob) : List (Option (List OutTok)) :=
  (List.range insert.packer_size).map (fun n => insert.packer.get? n)

/-- The environment the dispatch task reads: own pool id, the live pool
count at dispatch time (it may differ from the job's `packer_size`),
whether a replica exists and its initsync is idle, whether the replication
filter produced a packet, and which peer sends the transport accepts. -/
structure DispatchEnv where
  ownPool : Nat
  livePoolLen : Nat
  hasReplica : Bool
  initsyncIdle : Bool
  filterOk : Bool
  sendOk : Nat → Bool

/-- Observable actions of one dispatch-loop iteration. -/
inductive DispatchEffect where
  | freeEmpty (n : Nat)
  | replicateEnqueue (n : Nat)
  | localApply (n : Nat)
  | peerSend (n : Nat)
  | peerSendFailedFree (n : Nat)
  deriving DecidableEq, Repr

/-- One iteration of the dispatch loop (insert.c:637-737) at pool index `n`
holding packer `pk`: an empty packer (header plus the QP_MAP_OPEN byte) is
only freed; the own pool goes through the replica branch or a plain local
apply; a remote pool is sent to its peer, the packet being freed (and not
counted) when the transport rejects it. -/
def dispatchOne (env : DispatchEnv) (n : Nat) (pk : List OutTok) :
    List DispatchEffect :=
  if packerLen pk = PKG_HEADER_SIZE + 1 then
    [DispatchEffect.freeEmpty n]
  else if n = env.ownPool then
    if env.hasReplica then
      if env.initsyncIdle then
        [DispatchEffect.replicateEnqueue n, DispatchEffect.localApply n]
      else if env.filterOk then
        [DispatchEffect.replicateEnqueue n, DispatchEffect.localApply n]
      else []
    else [DispatchEffect.localApply n]
  else if env.sendOk n then [DispatchEffect.peerSend n]
  else [DispatchEffect.peerSendFailedFree n]

/-- Whether an effect is a successful peer send. -/
def isPeerSend : DispatchEffect → Bool
  | DispatchEffect.peerSend _ => true
  | _ => false

/-- Embedding of the dispatch task `INSERT_points_to_pools`
(insert.c:619-743).  The result carries, in order: the effect list of every
iteration (the loop runs over exactly `packer_size` indices), the final
aggregator size (`promises->promises->size = pool_count`, the number of
successful peer sends), and the initial aggregator size
(`siridb->pools->len - 1` at dispatch time). -/
def INSERT_points_to_pools (env : DispatchEnv) (insert : InsertJob) :
    List (List DispatchEffect) × Nat × Nat :=
  let effs := (List.range insert.packer_size).map
    (fun n => dispatchOne env n (insert.packer.getD n []))
  (effs, (effs.flatMap id).countP isPeerSend, env.livePoolLen - 1)

/-!
### The completion callback
-/

/-- Modelled from the spec: the protocol tags `BPROTO_ACK_INSERT`,
`CPROTO_RES_INSERT` and `CPROTO_ERR_INSERT` (protocol.h is not in the
sources; only their distinctness matters). -/
def BPROTO_ACK_INSERT : Nat := 50

/-- Modelled from the spec: see `BPROTO_ACK_INSERT`. -/
def CPROTO_RES_INSERT : Nat := 2

/-- Modelled from the spec: see `BPROTO_ACK_INSERT`. -/
def CPROTO_ERR_INSERT : Nat := 66

/-- One collected promise: the responding server's name and the tag of its
response package (`none` models `pkg == NULL`, a missing response). -/
structure PromiseEntry where
  serverName : Bytes
  pkgTag : Option Nat
  deriving DecidableEq, Repr

/-- The single message the callback builds into the response. -/
inductive RespMsg where
  | uninit
  | critical (server : Bytes)
  | peerErr (server : Bytes)
  | success (npoints : Int)
  deriving DecidableEq, Repr

/-- The promise loop of `INSERT_on_response` (insert.c:552-579): each
critical or failed promise overwrites `msg` and forces the error tag; an
acknowledged promise leaves both alone. -/
def onRespLoop (ownName : Bytes) (siriErr : Bool) :
    List (Option PromiseEntry) → RespMsg → Nat → RespMsg × Nat
  | [], msg, tp => (msg, tp)
  | none :: ps, _, _ =>
      onRespLoop ownName siriErr ps (RespMsg.critical ownName)
        CPROTO_ERR_INSERT
  | some pr :: ps, msg, tp =>
      if siriErr then
        onRespLoop ownName siriErr ps (RespMsg.critical ownName)
          CPROTO_ERR_INSERT
      else if pr.pkgTag ≠ some BPROTO_ACK_INSERT then
        onRespLoop ownName siriErr ps (RespMsg.peerErr pr.serverName)
          CPROTO_ERR_INSERT
      else onRespLoop ownName siriErr ps msg tp

/-- Embedding of `INSERT_on_response` (insert.c:533-611): fold the promises,
then build the one response, a success message carrying `npoints` unless
some promise forced the error tag. -/
def INSERT_on_response (ownName : Bytes) (siriErr : Bool) (npoints : Int)
    (promises : List (Option PromiseEntry)) : RespMsg × Nat :=
  let r := onRespLoop ownName siriErr promises RespMsg.uninit
    CPROTO_RES_INSERT
  if r.snd = CPROTO_ERR_INSERT then r
  else (RespMsg.success npoints, CPROTO_RES_INSERT)

/-- The promises whose response is missing or not an ACK_INSERT. -/
def failedOf (ps : List PromiseEntry) : List PromiseEntry :=
  ps.filter (fun pr => pr.pkgTag ≠ some BPROTO_ACK_INSERT)

theorem onRespLoop_all_some (ownName : Bytes) (ps : List PromiseEntry) :
    ∀ msg tp, onRespLoop ownName false (ps.map some) msg tp
      = (failedOf ps).foldl
          (fun _ pr => (RespMsg.peerErr pr.serverName, CPROTO_ERR_INSERT))
          (msg, tp) := by
  induction ps with
  | nil => intro msg tp; simp [onRespLoop, failedOf]
  | cons pr ps ih =>
      intro msg tp
      by_cases hf : pr.pkgTag ≠ some BPROTO_ACK_INSERT
      · have hstep : onRespLoop ownName false ((pr :: ps).map some) msg tp
            = onRespLoop ownName false (ps.map some)
                (RespMsg.peerErr pr.serverName) CPROTO_ERR_INSERT := by
          simp [onRespLoop, hf]
        have hfl : failedOf (pr :: ps) = pr :: failedOf ps := by
          simp [failedOf, hf]
        rw [hstep, ih, hfl]
        simp
      · have hstep : onRespLoop ownName false ((pr :: ps).map some) msg tp
            = onRespLoop ownName false (ps.map some) msg tp := by
          simp [onRespLoop, hf]
        have hfl : failedOf (pr :: ps) = failedOf ps := by
          simp only [failedOf, List.filter_cons]
          simp at hf
          simp [hf]
        rw [hstep, ih, hfl]

theorem foldl_const_getLast {α β : Type} (g : α → β) :
    ∀ (l : List α) (init : β) (q : α), l.getLast? = some q →
      l.foldl (fun _ x => g x) init = g q := by
  intro l
  induction l with
  | nil => intro init q h; simp at h
  | cons x xs ih =>
      intro init q h
      cases xs with
      | nil =>
          simp at h
          subst h
          simp
      | cons y ys =>
          rw [List.getLast?_cons_cons] at h
          simp only [List.foldl_cons]
          exact ih (g x) q h

/-!
### The test variant of the local apply
-/

/-- Observable actions of `INSERT_local_test` against the series index and
the storage engine. -/
inductive LtEffect where
  | createSeries (name : Bytes) (firstVal : QpTok)
  | addPoint (name : Bytes) (ts : Int) (v : QpTok)
  deriving DecidableEq, Repr

/-- Unchecked read of a token's `via->int64` field, as
`qp_series_ts->via->int64` performs it; a non-integer token yields an
unspecified value, fixed at 0 here (unreachable on repacker-built
buffers). -/
def tsOf : QpTok → Int
  | QpTok.int64 i => i
  | _ => 0

/-- The inner point loop of `INSERT_local_test` (insert.c:361-374): while
the next token is QP_ARRAY2, read timestamp and value and add the point; on
exit hand back the effects, the lookahead token and the rest.  The
sub-three-token tails model the C reader meeting end of input (QP_END). -/
def ltPoints (nm : Bytes) : List QpTok → List LtEffect × QpTok × List QpTok
  | QpTok.array2 :: tsTok :: vTok :: s3 =>
      let r := ltPoints nm s3
      (LtEffect.addPoint nm (tsOf tsTok) vTok :: r.fst, r.snd)
  | [QpTok.array2, tsTok] =>
      ([LtEffect.addPoint nm (tsOf tsTok) QpTok.endTok], QpTok.endTok, [])
  | [QpTok.array2] =>
      ([LtEffect.addPoint nm 0 QpTok.endTok], QpTok.endTok, [])
  | t :: s => ([], t, s)
  | [] => ([], QpTok.endTok, [])

/-- The apply block of `INSERT_local_test` (insert.c:348-374): two blind
reads past the array-open and first QP_ARRAY2 markers, the first point, then
the inner loop. -/
def ltApply (nm : Bytes) : List QpTok → List LtEffect × QpTok × List QpTok
  | _ :: _ :: tsTok :: vTok :: s2 =>
      let r := ltPoints nm s2
      (LtEffect.addPoint nm (tsOf tsTok) vTok :: r.fst, r.snd)
  | _ => ([LtEffect.addPoint nm 0 QpTok.endTok], QpTok.endTok, [])

/-- The peek of insert.c:296-304: save the read pointer, skip array-open,
QP_ARRAY2 and the timestamp, read the first value's type, restore the
pointer. -/
def peekVal : List QpTok → QpTok
  | _ :: _ :: _ :: v :: _ => v
  | _ => QpTok.endTok

/-- Scanner for an open array: run to the matching ARRAY_CLOSE, tracking
nesting depth; returns the scanned tokens (close included) and the rest. -/
def qpScan : List QpTok → Nat → List QpTok × List QpTok
  | [], _ => ([], [])
  | QpTok.array_close :: s, 0 => ([QpTok.array_close], s)
  | QpTok.array_close :: s, Nat.succ d =>
      let r := qpScan s d
      (QpTok.array_close :: r.fst, r.snd)
  | QpTok.array_open :: s, d =>
      let r := qpScan s (d + 1)
      (QpTok.array_open :: r.fst, r.snd)
  | t :: s, d =>
      let r := qpScan s d
      (t :: r.fst, r.snd)

/-- Model of skipping or verbatim-copying one whole object (`qp_skip_next`,
`qp_packer_extend_fu`): an open array runs to its matching close, an atom is
itself.  On the buffers this code processes (repacker output) point arrays
hold only atoms and QP_ARRAY2 markers, for which this agrees with qpack's
recursive object skip. -/
def qpObject : List QpTok → List QpTok × List QpTok
  | QpTok.array_open :: s =>
      let r := qpScan s 0
      (QpTok.array_open :: r.fst, r.snd)
  | t :: s => ([t], s)
  | [] => ([], [])

/-- Weight of the lookahead token for the termination measure of the series
loop: a terminated raw (a series name about to be processed) counts one. -/
def tokW (t : QpTok) : Nat := if qp_is_raw_term t then 1 else 0

theorem tokW_le (t : QpTok) : tokW t ≤ 1 := by
  unfold tokW; split <;> omega

theorem qpnext_measure (l : List QpTok) :
    (qp_next l).snd.length + tokW (qp_next l).fst ≤ l.length := by
  cases l with
  | nil => simp [qp_next, tokW, qp_is_raw_term]
  | cons x xs =>
      simp only [qp_next, List.length_cons]
      have := tokW_le x
      omega

theorem qpScan_snd_le : ∀ (s : List QpTok) (d : Nat),
    (qpScan s d).snd.length ≤ s.length := by
  intro s
  induction s with
  | nil => intro d; simp [qpScan]
  | cons t ts ih =>
      intro d
      cases t with
      | array_close =>
          cases d with
          | zero => simp [qpScan]
          | succ d =>
              have := ih d
              simp only [qpScan, List.length_cons]
              omega
      | array_open =>
          have := ih (d + 1)
          simp only [qpScan, List.length_cons]
          omega
      | map_open =>
          have := ih d
          simp only [qpScan, List.length_cons]
          omega
      | map_close =>
          have := ih d
          simp only [qpScan, List.length_cons]
          omega
      | array2 =>
          have := ih d
          simp only [qpScan, List.length_cons]
          omega
      | map2 =>
          have := ih d
          simp only [qpScan, List.length_cons]
          omega
      | raw s0 =>
          have := ih d
          simp only [qpScan, List.length_cons]
          omega
      | int64 i =>
          have := ih d
          simp only [qpScan, List.length_cons]
          omega
      | double x =>
          have := ih d
          simp only [qpScan, List.length_cons]
          omega
      | endTok =>
          have := ih d
          simp only [qpScan, List.length_cons]
          omega

theorem qpObject_snd_le (s : List QpTok) :
    (qpObject s).snd.length ≤ s.length := by
  cases s with
  | nil => simp [qpObject]
  | cons t ts =>
      cases t with
      | array_open =>
          have := qpScan_snd_le ts 0
          simp only [qpObject, List.length_cons]
          omega
      | map_open => simp [qpObject]
      | map_close => simp [qpObject]
      | array_close => simp [qpObject]
      | array2 => simp [qpObject]
      | map2 => simp [qpObject]
      | raw s0 => simp [qpObject]
      | int64 i => simp [qpObject]
      | double x => simp [qpObject]
      | endTok => simp [qpObject]

theorem ltPoints_measure (nm : Bytes) : ∀ (s : List QpTok),
    (ltPoints nm s).snd.snd.length + tokW (ltPoints nm s).snd.fst
      ≤ s.length := by
  intro s
  induction s using ltPoints.induct nm with
  | case1 tsTok vTok s3 ih =>
      simp only [ltPoints, List.length_cons]
      omega
  | case2 tsTok =>
      simp [ltPoints, tokW, qp_is_raw_term]
  | case3 =>
      simp [ltPoints, tokW, qp_is_raw_term]
  | case4 t s h1 h2 h3 =>
      rw [ltPoints.eq_def]
      split
      · rename_i tsTok vTok s3 heq
        cases heq
        exact (h1 _ _ _ rfl rfl).elim
      · rename_i tsTok heq
        cases heq
        exact (h2 _ rfl rfl).elim
      · rename_i heq
        cases heq
        exact (h3 rfl rfl).elim
      · rename_i t2 s2 heq
        cases heq
        simp only [List.length_cons]
        have := tokW_le t
        omega
      · rename_i heq
        exact absurd heq (by simp)
  | case5 =>
      simp [ltPoints, tokW, qp_is_raw_term]

theorem ltApply_measure (nm : Bytes) (s : List QpTok) :
    (ltApply nm s).snd.snd.length + tokW (ltApply nm s).snd.fst
      ≤ s.length := by
  rw [ltApply.eq_def]
  split
  · rename_i a b tsTok vTok s2
    have := ltPoints_measure nm s2
    simp only [List.length_cons]
    omega
  · simp [tokW, qp_is_raw_term]

/-- The state `INSERT_local_test` reads: own pool and server ids, the live
pool count (sizing the forward job's per-pool packers), the current lookup
(`siridb_lookup_sn` on `pools->lookup`), whether a replica exists, and the
series-name-to-server-id hash (`siridb_series_server_id`). -/
structure LocalTestEnv where
  ownPool : Nat
  poolsLen : Nat
  lookup : Bytes → Nat
  hasReplica : Bool
  serverIdOf : Bytes → Nat
  ownServerId : Nat

/-- The series loop of `INSERT_local_test` (insert.c:280-380), carrying the
lookahead token, the stream, the live series index (as the list of names
present), the forward job's per-pool packers, the `do_forward` flag and the
accumulated effects.  An existing series is applied; a missing one is
created and applied when the current lookup routes it here, forwarded
verbatim (name raw plus the whole points object) when this server is
responsible for it, and skipped when its replica is. -/
def ltLoop (env : LocalTestEnv) :
    QpTok → List QpTok → List Bytes → List (List QpTok) → Bool →
    List LtEffect → List LtEffect × List (List QpTok) × Bool
  | QpTok.raw s0, rest, series, fwd, doFwd, effs =>
      if qp_is_raw_term (QpTok.raw s0) then
        let nm := cstr s0
        if nm ∈ series then
          let r := ltApply nm rest
          let n2 := if r.snd.fst = QpTok.array_close then qp_next r.snd.snd
            else r.snd
          ltLoop env n2.fst n2.snd series fwd doFwd (effs ++ r.fst)
        else
          let pool := env.lookup nm
          if pool = env.ownPool then
            let r := ltApply nm rest
            let n2 := if r.snd.fst = QpTok.array_close then qp_next r.snd.snd
              else r.snd
            ltLoop env n2.fst n2.snd (nm :: series) fwd doFwd
              (effs ++ (LtEffect.createSeries nm (peekVal rest) :: r.fst))
          else if ¬env.hasReplica ∨ env.serverIdOf nm = env.ownServerId then
            let ro := qpObject rest
            ltLoop env (qp_next ro.snd).fst (qp_next ro.snd).snd series
              (fwd.set pool (fwd.getD pool [] ++ (QpTok.raw s0 :: ro.fst)))
              true effs
          else
            let ro := qpObject rest
            ltLoop env (qp_next ro.snd).fst (qp_next ro.snd).snd series fwd
              doFwd effs
      else (effs, fwd, doFwd)
  | _, _, _, fwd, doFwd, effs => (effs, fwd, doFwd)
termination_by t s _ _ _ _ => s.length + tokW t
decreasing_by
  · have hterm : qp_is_raw_term (QpTok.raw s0) = true := by assumption
    have ht : tokW (QpTok.raw s0) = 1 := by simp [tokW, hterm]
    rw [ht]
    have h1 := ltApply_measure (cstr s0) rest
    have h2 := qpnext_measure (ltApply (cstr s0) rest).snd.snd
    split
    · omega
    · omega
  · have hterm : qp_is_raw_term (QpTok.raw s0) = true := by assumption
    have ht : tokW (QpTok.raw s0) = 1 := by simp [tokW, hterm]
    rw [ht]
    have h1 := ltApply_measure (cstr s0) rest
    have h2 := qpnext_measure (ltApply (cstr s0) rest).snd.snd
    split
    · omega
    · omega
  · have hterm : qp_is_raw_term (QpTok.raw s0) = true := by assumption
    have ht : tokW (QpTok.raw s0) = 1 := by simp [tokW, hterm]
    rw [ht]
    have h1 := qpObject_snd_le rest
    have h2 := qpnext_measure (qpObject rest).snd
    omega
  · have hterm : qp_is_raw_term (QpTok.raw s0) = true := by assumption
    have ht : tokW (QpTok.raw s0) = 1 := by simp [tokW, hterm]
    rw [ht]
    have h1 := qpObject_snd_le rest
    have h2 := qpnext_measure (qpObject rest).snd
    omega

/-- Embedding of `INSERT_local_test` (insert.c:241-412): allocate the
forward job's packers (one per live pool), read past the map marker, run the
series loop over the given live series index, and return the effects, the
forward packers and the `do_forward` flag (when set, the C code posts the
forward task).  Mutexes and allocation failure are outside the model. -/
def INSERT_local_test (env : LocalTestEnv) (series0 : List Bytes)
    (stream : List QpTok) : List LtEffect × List (List QpTok) × Bool :=
  let s1 := (qp_next stream).snd
  ltLoop env (qp_next s1).fst (qp_next s1).snd series0
    (List.replicate env.poolsLen []) false []

/-- The name raw as the repacker wrote it into a pool buffer
(`qp_add_raw_term`): payload plus terminating zero byte. -/
def rawTermTok (name : Bytes) : QpTok := QpTok.raw (name ++ [0])

/-- A pool buffer's body as the repacker built it: QP_MAP_OPEN, then per
series the terminated name and the framed points (no closing marker; the
reader stops at end of input). -/
def encLocalBody (L : List QSeries) : List QpTok :=
  QpTok.map_open ::
    L.flatMap (fun e => rawTermTok e.name :: encPoints e.points)

/-- Series shape assumed by the local-apply lemmas: a non-empty name without
interior zero bytes and at least one point. -/
def wfLocal (e : QSeries) : Prop :=
  e.name ≠ [] ∧ (0 : Nat) ∉ e.name ∧ e.points ≠ []

theorem cstr_append_zero {name : Bytes} (h : (0 : Nat) ∉ name) :
    cstr (name ++ [0]) = name := by
  induction name with
  | nil => simp [cstr]
  | cons a as ih =>
      have ha : a ≠ 0 := fun hc => h (by simp [hc])
      have has : (0 : Nat) ∉ as := fun hc => h (by simp [hc])
      rw [List.cons_append]
      have hstep : cstr (a :: (as ++ [0])) = a :: cstr (as ++ [0]) := by
        simp [cstr, List.takeWhile_cons, ha]
      rw [hstep, ih has]

theorem raw_term_rawTermTok (name : Bytes) :
    qp_is_raw_term (rawTermTok name) = true := by
  simp [qp_is_raw_term, rawTermTok]

theorem ltPoints_enc (nm : Bytes) (ps : List QPoint) (rest : List QpTok) :
    ltPoints nm (ps.flatMap encPoint ++ QpTok.array_close :: rest)
      = (ps.map (fun q => LtEffect.addPoint nm q.ts (valTok q.val)),
         QpTok.array_close, rest) := by
  induction ps with
  | nil => simp [ltPoints]
  | cons q qs ih =>
      have hstream : (q :: qs).flatMap encPoint ++ QpTok.array_close :: rest
          = QpTok.array2 :: QpTok.int64 q.ts :: valTok q.val ::
              (qs.flatMap encPoint ++ QpTok.array_close :: rest) := by
        simp [encPoint]
      rw [hstream, ltPoints, ih]
      simp [tsOf]

theorem ltApply_enc (nm : Bytes) (p : QPoint) (ps : List QPoint)
    (rest : List QpTok) :
    ltApply nm (encPoints (p :: ps) ++ rest)
      = ((p :: ps).map (fun q => LtEffect.addPoint nm q.ts (valTok q.val)),
         QpTok.array_close, rest) := by
  have hstream : encPoints (p :: ps) ++ rest
      = QpTok.array_open :: QpTok.array2 :: QpTok.int64 p.ts ::
          valTok p.val :: (ps.flatMap encPoint ++ QpTok.array_close :: rest)
      := by
    simp [encPoints, encPoint]
  rw [hstream, ltApply, ltPoints_enc]
  simp [tsOf]

theorem qpScan_atoms {l : List QpTok}
    (h : ∀ t ∈ l, t ≠ QpTok.array_open ∧ t ≠ QpTok.array_close)
    (rest : List QpTok) :
    qpScan (l ++ QpTok.array_close :: rest) 0
      = (l ++ [QpTok.array_close], rest) := by
  induction l with
  | nil => simp [qpScan]
  | cons t ts ih =>
      have ht := h t (by simp)
      have hts : ∀ x ∈ ts, x ≠ QpTok.array_open ∧ x ≠ QpTok.array_close :=
        fun x hx => h x (by simp [hx])
      cases t with
      | array_open => exact absurd rfl ht.1
      | array_close => exact absurd rfl ht.2
      | map_open =>
          rw [List.cons_append]
          simp only [qpScan, ih hts]
          simp
      | map_close =>
          rw [List.cons_append]
          simp only [qpScan, ih hts]
          simp
      | array2 =>
          rw [List.cons_append]
          simp only [qpScan, ih hts]
          simp
      | map2 =>
          rw [List.cons_append]
          simp only [qpScan, ih hts]
          simp
      | raw s0 =>
          rw [List.cons_append]
          simp only [qpScan, ih hts]
          simp
      | int64 i =>
          rw [List.cons_append]
          simp only [qpScan, ih hts]
          simp
      | double d =>
          rw [List.cons_append]
          simp only [qpScan, ih hts]
          simp
      | endTok =>
          rw [List.cons_append]
          simp only [qpScan, ih hts]
          simp

theorem encPoint_atoms (ps : List QPoint) :
    ∀ t ∈ ps.flatMap encPoint,
      t ≠ QpTok.array_open ∧ t ≠ QpTok.array_close := by
  intro t ht
  simp only [List.mem_flatMap] at ht
  obtain ⟨q, _, hq⟩ := ht
  simp only [encPoint, List.mem_cons] at hq
  rcases hq with h | h | h
  · subst h; exact ⟨by simp, by simp⟩
  · subst h; exact ⟨by simp, by simp⟩
  · simp at h
    subst h
    cases q.val <;> simp [valTok]

theorem qpObject_encPoints (ps : List QPoint) (rest : List QpTok) :
    qpObject (encPoints ps ++ rest) = (encPoints ps, rest) := by
  have hstream : encPoints ps ++ rest
      = QpTok.array_open ::
          (ps.flatMap encPoint ++ QpTok.array_close :: rest) := by
    simp [encPoints]
  rw [hstream, qpObject, qpScan_atoms (encPoint_atoms ps)]
  simp [encPoints]

theorem peekVal_enc (p : QPoint) (ps : List QPoint) (rest : List QpTok) :
    peekVal (encPoints (p :: ps) ++ rest) = valTok p.val := by
  simp [encPoints, encPoint, peekVal]

/-- The first value's token of a series, as the creation peek reads it. -/
def headVal (e : QSeries) : QpTok :=
  match e.points with
  | p :: _ => valTok p.val
  | [] => QpTok.endTok

/-- The storage effects of applying one series' points. -/
def applyEffects (e : QSeries) : List LtEffect :=
  e.points.map (fun q => LtEffect.addPoint e.name q.ts (valTok q.val))

/-- The forwarded fragment of one series: the terminated name raw followed
by the whole points object, verbatim. -/
def fwdFragment (e : QSeries) : List QpTok :=
  rawTermTok e.name :: encPoints e.points

/-- Reference recursion for the series loop of `INSERT_local_test` on a
repacker-built buffer: one step per series, in order. -/
def refLT (env : LocalTestEnv) :
    List QSeries → List Bytes → List (List QpTok) → Bool → List LtEffect →
    List LtEffect × List (List QpTok) × Bool
  | [], _, fwd, doFwd, effs => (effs, fwd, doFwd)
  | e :: L, series, fwd, doFwd, effs =>
      if e.name ∈ series then
        refLT env L series fwd doFwd (effs ++ applyEffects e)
      else if env.lookup e.name = env.ownPool then
        refLT env L (e.name :: series) fwd doFwd
          (effs ++ (LtEffect.createSeries e.name (headVal e) :: applyEffects e))
      else if ¬env.hasReplica ∨ env.serverIdOf e.name = env.ownServerId then
        refLT env L series
          (fwd.set (env.lookup e.name)
            (fwd.getD (env.lookup e.name) [] ++ fwdFragment e))
          true effs
      else
        refLT env L series fwd doFwd effs

theorem ltLoop_enc (env : LocalTestEnv) (L : List QSeries) :
    ∀ (series : List Bytes) (fwd : List (List QpTok)) (doFwd : Bool)
      (effs : List LtEffect),
      (∀ e ∈ L, wfLocal e) →
      ltLoop env
        (qp_next (L.flatMap
          (fun e => rawTermTok e.name :: encPoints e.points))).fst
        (qp_next (L.flatMap
          (fun e => rawTermTok e.name :: encPoints e.points))).snd
        series fwd doFwd effs
      = refLT env L series fwd doFwd effs := by
  induction L with
  | nil =>
      intro series fwd doFwd effs _
      simp [qp_next, ltLoop, refLT]
  | cons e L ih =>
      intro series fwd doFwd effs hwf
      obtain ⟨hne, hz, hp⟩ := hwf e (by simp)
      obtain ⟨p, ps, hpts⟩ : ∃ p ps, e.points = p :: ps := by
        cases hpe : e.points with
        | nil => exact absurd hpe hp
        | cons p ps => exact ⟨p, ps, rfl⟩
      have hwfL : ∀ x ∈ L, wfLocal x := fun x hx => hwf x (by simp [hx])
      have hcstr : cstr (e.name ++ [0]) = e.name := cstr_append_zero hz
      have htail := ih series fwd doFwd effs
      have hstream : (e :: L).flatMap
            (fun e => rawTermTok e.name :: encPoints e.points)
          = rawTermTok e.name ::
              (encPoints e.points ++
                L.flatMap (fun e => rawTermTok e.name :: encPoints e.points))
          := by
        simp
      rw [hstream]
      simp only [qp_next, rawTermTok]
      rw [ltLoop]
      rw [if_pos (by simpa using raw_term_rawTermTok e.name)]
      simp only [hcstr]
      by_cases hmem : e.name ∈ series
      · rw [if_pos hmem]
        rw [hpts, ltApply_enc]
        simp only []
        simp only [if_pos trivial]
        have := ih series fwd doFwd
          (effs ++ (p :: ps).map
            (fun q => LtEffect.addPoint e.name q.ts (valTok q.val))) hwfL
        simp only [rawTermTok] at this
        rw [this]
        rw [refLT, if_pos hmem]
        simp [applyEffects, hpts]
      · rw [if_neg hmem]
        by_cases hown : env.lookup e.name = env.ownPool
        · rw [if_pos hown]
          rw [hpts, ltApply_enc]
          simp only []
          simp only [if_pos trivial]
          rw [peekVal_enc]
          have := ih (e.name :: series) fwd doFwd
            (effs ++ (LtEffect.createSeries e.name (valTok p.val) ::
              (p :: ps).map
                (fun q => LtEffect.addPoint e.name q.ts (valTok q.val)))) hwfL
          simp only [rawTermTok] at this
          rw [this]
          rw [refLT, if_neg hmem, if_pos hown]
          simp [applyEffects, headVal, hpts]
        · rw [if_neg hown]
          by_cases hfw : ¬env.hasReplica ∨ env.serverIdOf e.name
              = env.ownServerId
          · rw [if_pos hfw]
            rw [hpts, qpObject_encPoints]
            have := ih series
              (fwd.set (env.lookup e.name)
                (fwd.getD (env.lookup e.name) [] ++
                  (QpTok.raw (e.name ++ [0]) :: encPoints (p :: ps))))
              true effs hwfL
            simp only [rawTermTok] at this
            rw [this]
            rw [refLT, if_neg hmem, if_neg hown, if_pos hfw]
            simp [fwdFragment, rawTermTok, hpts]
          · rw [if_neg hfw]
            rw [hpts, qpObject_encPoints]
            have := ih series fwd doFwd effs hwfL
            simp only [rawTermTok] at this
            rw [this]
            rw [refLT, if_neg hmem, if_neg hown, if_neg hfw]

theorem refLT_create (env : LocalTestEnv) :
    ∀ (L : List QSeries) (series : List Bytes) (fwd : List (List QpTok))
      (doFwd : Bool) (effs : List LtEffect) (nm : Bytes) (v : QpTok),
      LtEffect.createSeries nm v ∈ (refLT env L series fwd doFwd effs).fst →
      LtEffect.createSeries nm v ∈ effs ∨ env.lookup nm = env.ownPool := by
  intro L
  induction L with
  | nil =>
      intro series fwd doFwd effs nm v h
      simp only [refLT] at h
      exact Or.inl h
  | cons e L ih =>
      intro series fwd doFwd effs nm v h
      rw [refLT] at h
      by_cases hmem : e.name ∈ series
      · rw [if_pos hmem] at h
        rcases ih _ _ _ _ _ _ h with hin | hown
        · rcases List.mem_append.mp hin with h1 | h2
          · exact Or.inl h1
          · exfalso; simp [applyEffects] at h2
        · exact Or.inr hown
      · rw [if_neg hmem] at h
        by_cases hown : env.lookup e.name = env.ownPool
        · rw [if_pos hown] at h
          rcases ih _ _ _ _ _ _ h with hin | ho
          · rcases List.mem_append.mp hin with h1 | h2
            · exact Or.inl h1
            · simp [applyEffects] at h2
              obtain ⟨hnm, _⟩ := h2
              subst hnm
              exact Or.inr hown
          · exact Or.inr ho
        · rw [if_neg hown] at h
          by_cases hfw : ¬env.hasReplica = true ∨
              env.serverIdOf e.name = env.ownServerId
          · rw [if_pos hfw] at h
            exact ih _ _ _ _ _ _ h
          · rw [if_neg hfw] at h
            exact ih _ _ _ _ _ _ h

theorem refLT_no_apply (env : LocalTestEnv) :
    ∀ (L : List QSeries) (series : List Bytes) (fwd : List (List QpTok))
      (doFwd : Bool) (effs : List LtEffect) (nm : Bytes),
      nm ∉ series → env.lookup nm ≠ env.ownPool →
      (∀ ts v, LtEffect.addPoint nm ts v ∉ effs) →
      ∀ ts v,
        LtEffect.addPoint nm ts v ∉ (refLT env L series fwd doFwd effs).fst
      := by
  intro L
  induction L with
  | nil =>
      intro series fwd doFwd effs nm _ _ heffs ts v
      simp only [refLT]
      exact heffs ts v
  | cons e L ih =>
      intro series fwd doFwd effs nm hser hlk heffs ts v
      rw [refLT]
      by_cases hmem : e.name ∈ series
      · rw [if_pos hmem]
        have hne : e.name ≠ nm := fun hc => hser (hc ▸ hmem)
        exact ih _ _ _ _ _ hser hlk
          (fun ts2 v2 hin => by
            rcases List.mem_append.mp hin with h1 | h2
            · exact heffs ts2 v2 h1
            · simp [applyEffects] at h2
              obtain ⟨a, _, hnm, _⟩ := h2
              exact hne hnm) ts v
      · rw [if_neg hmem]
        by_cases hown : env.lookup e.name = env.ownPool
        · rw [if_pos hown]
          have hne : e.name ≠ nm := fun hc => hlk (hc ▸ hown)
          exact ih _ _ _ _ _
            (by
              intro hc
              rcases List.mem_cons.mp hc with h1 | h2
              · exact hne h1.symm
              · exact hser h2)
            hlk
            (fun ts2 v2 hin => by
              rcases List.mem_append.mp hin with h1 | h2
              · exact heffs ts2 v2 h1
              · rcases List.mem_cons.mp h2 with h3 | h4
                · exact absurd h3 (by simp)
                · simp [applyEffects] at h4
                  obtain ⟨a, _, hnm, _⟩ := h4
                  exact hne hnm) ts v
        · rw [if_neg hown]
          by_cases hfw : ¬env.hasReplica = true ∨
              env.serverIdOf e.name = env.ownServerId
          · rw [if_pos hfw]
            exact ih _ _ _ _ _ hser hlk heffs ts v
          · rw [if_neg hfw]
            exact ih _ _ _ _ _ hser hlk heffs ts v

theorem fwdGet_set_self (fwd : List (List QpTok)) (n : Nat) (x : List QpTok)
    (h : n < fwd.length) : (fwd.set n x).getD n [] = x := by
  simp [List.getD_eq_getElem?_getD, List.getElem?_set_self, h]

theorem fwdGet_set_ne (fwd : List (List QpTok)) (n m : Nat) (x : List QpTok)
    (h : n ≠ m) : (fwd.set n x).getD m [] = fwd.getD m [] := by
  simp [List.getD_eq_getElem?_getD, List.getElem?_set_ne h]

theorem refLT_fwd_mono (env : LocalTestEnv) :
    ∀ (L : List QSeries) (series : List Bytes) (fwd : List (List QpTok))
      (doFwd : Bool) (effs : List LtEffect) (p : Nat),
      fwd.getD p [] <+:
        ((refLT env L series fwd doFwd effs).snd.fst).getD p [] := by
  intro L
  induction L with
  | nil =>
      intro series fwd doFwd effs p
      simp [refLT]
  | cons e L ih =>
      intro series fwd doFwd effs p
      rw [refLT]
      by_cases hmem : e.name ∈ series
      · rw [if_pos hmem]; exact ih _ _ _ _ _
      · rw [if_neg hmem]
        by_cases hown : env.lookup e.name = env.ownPool
        · rw [if_pos hown]; exact ih _ _ _ _ _
        · rw [if_neg hown]
          by_cases hfw : ¬env.hasReplica = true ∨
              env.serverIdOf e.name = env.ownServerId
          · rw [if_pos hfw]
            have hstep : fwd.getD p [] <+:
                (fwd.set (env.lookup e.name)
                  (fwd.getD (env.lookup e.name) [] ++ fwdFragment e)).getD
                  p [] := by
              by_cases hlt : env.lookup e.name < fwd.length
              · by_cases hpq : env.lookup e.name = p
                · subst hpq
                  rw [fwdGet_set_self _ _ _ hlt]
                  exact List.prefix_append _ _
                · rw [fwdGet_set_ne _ _ _ _ hpq]
              · rw [List.set_eq_of_length_le (by omega)]
            exact hstep.trans (ih _ _ _ _ _)
          · rw [if_neg hfw]; exact ih _ _ _ _ _

theorem refLT_fwd_frag (env : LocalTestEnv) :
    ∀ (L : List QSeries) (series : List Bytes) (fwd : List (List QpTok))
      (doFwd : Bool) (effs : List LtEffect) (e : QSeries),
      e ∈ L →
      e.name ∉ series →
      env.lookup e.name ≠ env.ownPool →
      (¬env.hasReplica = true ∨ env.serverIdOf e.name = env.ownServerId) →
      env.lookup e.name < fwd.length →
      fwdFragment e <:+:
        ((refLT env L series fwd doFwd effs).snd.fst).getD
          (env.lookup e.name) [] := by
  intro L
  induction L with
  | nil => intro series fwd doFwd effs e he; exact absurd he (by simp)
  | cons e2 L ih =>
      intro series fwd doFwd effs e he hser hlk hfw hlen
      rcases List.mem_cons.mp he with heq | htail
      · subst heq
        rw [refLT, if_neg hser, if_neg hlk, if_pos hfw]
        have hmid : fwdFragment e <:+:
            (fwd.set (env.lookup e.name)
              (fwd.getD (env.lookup e.name) [] ++ fwdFragment e)).getD
              (env.lookup e.name) [] := by
          rw [fwdGet_set_self _ _ _ hlen]
          exact (List.suffix_append _ _).isInfix
        exact hmid.trans (refLT_fwd_mono env L _ _ _ _ _).isInfix
      · rw [refLT]
        by_cases hmem : e2.name ∈ series
        · rw [if_pos hmem]
          exact ih _ _ _ _ _ htail hser hlk hfw hlen
        · rw [if_neg hmem]
          by_cases hown : env.lookup e2.name = env.ownPool
          · rw [if_pos hown]
            have hne : e.name ≠ e2.name := fun hc => hlk (hc ▸ hown)
            exact ih _ _ _ _ _ htail
              (by
                intro hc
                rcases List.mem_cons.mp hc with h1 | h2
                · exact hne h1
                · exact hser h2)
              hlk hfw hlen
          · rw [if_neg hown]
            by_cases hfw2 : ¬env.hasReplica = true ∨
                env.serverIdOf e2.name = env.ownServerId
            · rw [if_pos hfw2]
              exact ih _ _ _ _ _ htail hser hlk hfw
                (by rw [List.length_set]; exact hlen)
            · rw [if_neg hfw2]
              exact ih _ _ _ _ _ htail hser hlk hfw hlen

/-!
### The administrative new-database request (request.c)
-/

/-- Modelled from the spec: administrative response tags of
`cproto_server_t` (protocol.h is not in the sources).
`CPROTO_SUCCESS_ADMIN` is the member every other admin handler returns on
success; the only property used below is that it is a fixed member distinct
from the literal 0.  The return type is embedded as `Int`. -/
def CPROTO_SUCCESS_ADMIN : Int := 32

/-- Modelled from the spec: see `CPROTO_SUCCESS_ADMIN`. -/
def CPROTO_ERR_ADMIN : Int := 33

/-- Modelled from the spec: see `CPROTO_SUCCESS_ADMIN`. -/
def CPROTO_ERR_ADMIN_INVALID_REQUEST : Int := 34

def DEFAULT_TIME_PRECISION : Int := 0

def DEFAULT_BUFFER_SIZE : Int := 1024

def DEFAULT_DURATION_NUM : Int := 604800

def DEFAULT_DURATION_LOG : Int := 86400

/-- The bytes of the literal "dbname". -/
def dbnameLit : Bytes := [100, 98, 110, 97, 109, 101]

/-- The bytes of the literal "time_precision". -/
def timePrecisionLit : Bytes :=
  [116, 105, 109, 101, 95, 112, 114, 101, 99, 105, 115, 105, 111, 110]

/-- The bytes of the literal "buffer_size". -/
def bufferSizeLit : Bytes := [98, 117, 102, 102, 101, 114, 95, 115, 105, 122, 101]

/-- The bytes of the literal "duration_num". -/
def durationNumLit : Bytes :=
  [100, 117, 114, 97, 116, 105, 111, 110, 95, 110, 117, 109]

/-- The bytes of the literal "duration_log". -/
def durationLogLit : Bytes :=
  [100, 117, 114, 97, 116, 105, 111, 110, 95, 108, 111, 103]

/-- Whether a token is a QP_RAW. -/
def isRawTok : QpTok → Bool
  | QpTok.raw _ => true
  | _ => false

/-- Whether a token is a QP_INT64. -/
def isInt64Tok : QpTok → Bool
  | QpTok.int64 _ => true
  | _ => false

/-- Unchecked read of `via.int64`, as the C union access performs it. -/
def intOf : QpTok → Int
  | QpTok.int64 i => i
  | _ => 0

/-- Unchecked read of `via.raw`. -/
def rawOf : QpTok → Bytes
  | QpTok.raw s => s
  | _ => []

/-- The five `qp_obj_t` slots of `ADMIN_on_new_database`, `none` modelling
the QP_HOOK initialisation.  A slot holds whatever token the guarded
`qp_next` consumed, matching type or not. -/
structure AdminFields where
  dbname : Option QpTok
  time_precision : Option QpTok
  buffer_size : Option QpTok
  duration_num : Option QpTok
  duration_log : Option QpTok
  deriving DecidableEq, Repr

/-- Fifth guard of the key loop (duration_log, expecting QP_INT64); a key
matching no guard is an invalid request. -/
def adminStep5 (key : Bytes) (s : List QpTok) (f : AdminFields) :
    Except Unit (AdminFields × List QpTok) :=
  if keyMatches key durationLogLit then
    let n := qp_next s
    let f2 := { f with duration_log := some n.fst }
    if isInt64Tok n.fst then Except.ok (f2, n.snd)
    else Except.error ()
  else Except.error ()

/-- Fourth guard (duration_num, QP_INT64). -/
def adminStep4 (key : Bytes) (s : List QpTok) (f : AdminFields) :
    Except Unit (AdminFields × List QpTok) :=
  if keyMatches key durationNumLit then
    let n := qp_next s
    let f2 := { f with duration_num := some n.fst }
    if isInt64Tok n.fst then Except.ok (f2, n.snd)
    else adminStep5 key n.snd f2
  else adminStep5 key s f

/-- Third guard (buffer_size, QP_INT64). -/
def adminStep3 (key : Bytes) (s : List QpTok) (f : AdminFields) :
    Except Unit (AdminFields × List QpTok) :=
  if keyMatches key bufferSizeLit then
    let n := qp_next s
    let f2 := { f with buffer_size := some n.fst }
    if isInt64Tok n.fst then Except.ok (f2, n.snd)
    else adminStep4 key n.snd f2
  else adminStep4 key s f

/-- Second guard (time_precision, QP_RAW). -/
def adminStep2 (key : Bytes) (s : List QpTok) (f : AdminFields) :
    Except Unit (AdminFields × List QpTok) :=
  if keyMatches key timePrecisionLit then
    let n := qp_next s
    let f2 := { f with time_precision := some n.fst }
    if isRawTok n.fst then Except.ok (f2, n.snd)
    else adminStep3 key n.snd f2
  else adminStep3 key s f

/-- First guard (dbname, QP_RAW): one pass of the sequential `if` chain of
the key loop (request.c:1321-1349).  A guard whose `strncmp` matches
consumes the next token into its slot whatever its type; on a type mismatch
the chain continues with the following guards (the C short-circuit falls
through with the token already consumed). -/
def adminStep (key : Bytes) (s : List QpTok) (f : AdminFields) :
    Except Unit (AdminFields × List QpTok) :=
  if keyMatches key dbnameLit then
    let n := qp_next s
    let f2 := { f with dbname := some n.fst }
    if isRawTok n.fst then Except.ok (f2, n.snd)
    else adminStep2 key n.snd f2
  else adminStep2 key s f

theorem adminStep5_length {key : Bytes} {s : List QpTok} {f f2 : AdminFields}
    {s2 : List QpTok} (h : adminStep5 key s f = Except.ok (f2, s2)) :
    s2.length ≤ s.length := by
  unfold adminStep5 at h
  split at h
  · dsimp only [] at h
    split at h
    · cases h
      exact qp_next_snd_length s
    · exact absurd h (by simp)
  · exact absurd h (by simp)

theorem adminStep4_length {key : Bytes} {s : List QpTok} {f f2 : AdminFields}
    {s2 : List QpTok} (h : adminStep4 key s f = Except.ok (f2, s2)) :
    s2.length ≤ s.length := by
  unfold adminStep4 at h
  split at h
  · dsimp only [] at h
    split at h
    · cases h
      exact qp_next_snd_length s
    · exact le_trans (adminStep5_length h) (qp_next_snd_length s)
  · exact adminStep5_length h

theorem adminStep3_length {key : Bytes} {s : List QpTok} {f f2 : AdminFields}
    {s2 : List QpTok} (h : adminStep3 key s f = Except.ok (f2, s2)) :
    s2.length ≤ s.length := by
  unfold adminStep3 at h
  split at h
  · dsimp only [] at h
    split at h
    · cases h
      exact qp_next_snd_length s
    · exact le_trans (adminStep4_length h) (qp_next_snd_length s)
  · exact adminStep4_length h

theorem adminStep2_length {key : Bytes} {s : List QpTok} {f f2 : AdminFields}
    {s2 : List QpTok} (h : adminStep2 key s f = Except.ok (f2, s2)) :
    s2.length ≤ s.length := by
  unfold adminStep2 at h
  split at h
  · dsimp only [] at h
    split at h
    · cases h
      exact qp_next_snd_length s
    · exact le_trans (adminStep3_length h) (qp_next_snd_length s)
  · exact adminStep3_length h

theorem adminStep_length {key : Bytes} {s : List QpTok} {f f2 : AdminFields}
    {s2 : List QpTok} (h : adminStep key s f = Except.ok (f2, s2)) :
    s2.length ≤ s.length := by
  unfold adminStep at h
  split at h
  · dsimp only [] at h
    split at h
    · cases h
      exact qp_next_snd_length s
    · exact le_trans (adminStep2_length h) (qp_next_snd_length s)
  · exact adminStep2_length h

/-- The key loop of `ADMIN_on_new_database` (request.c:1321-1349): read
keys while QP_RAW; any non-RAW token ends the loop and hands the collected
fields to the validation chain. -/
def adminLoop : List QpTok → AdminFields → Except Unit AdminFields
  | QpTok.raw key :: s, f =>
      (match h : adminStep key s f with
      | Except.error _ => Except.error ()
      | Except.ok (f2, s2) => adminLoop s2 f2)
  | _ :: _, f => Except.ok f
  | [], f => Except.ok f
termination_by s _ => s.length
decreasing_by
  have := adminStep_length h
  simp only [List.length_cons]
  omega

/-- Model of `xmath_ipow(1000, e)` for the non-negative exponents the
handler passes. -/
def ipow1000 (e : Int) : Int := 1000 ^ e.toNat

/-- Embedding of `ADMIN_time_precision` (request.c:1558-1578): "s" is 0;
"ms", "us", "ns" are 1, 2, 3; anything else (a non-RAW slot included)
is -1. -/
def ADMIN_time_precision : QpTok → Int
  | QpTok.raw s =>
      if s.length = 1 ∧ s.getD 0 0 = 115 then 0
      else if s.length = 2 ∧ s.getD 1 0 = 115 then
        if s.getD 0 0 = 109 then 1
        else if s.getD 0 0 = 117 then 2
        else if s.getD 0 0 = 110 then 3
        else -1
      else -1
  | _ => -1

/-- Decimal-digit prefix parse, modelling the `strtol` call on the raw
bytes (the handler's inputs carry no sign or leading whitespace). -/
def strtolDigits : Bytes → Int → Int × Bytes
  | c :: rest, acc =>
      if 48 ≤ c ∧ c ≤ 57 then strtolDigits rest (acc * 10 + (c : Int) - 48)
      else (acc, c :: rest)
  | [], acc => (acc, [])

/-- Whether the first byte is a decimal digit: the C check
`endptr == raw` after `strtol` (no digit consumed). -/
def firstIsDigit : Bytes → Bool
  | c :: _ => 48 ≤ c ∧ c ≤ 57
  | [] => false

/-- Embedding of `ADMIN_duration` (request.c:1580-1605): a 1..99 value with
an h/d/w suffix, scaled by the time precision; every failure is -1. -/
def ADMIN_duration (o : QpTok) (time_precision : Int) : Int :=
  match o with
  | QpTok.raw s =>
      if s.length < 2 then -1
      else
        let r := strtolDigits s 0
        if ¬ firstIsDigit s then -1
        else if r.fst < 1 ∨ 99 < r.fst then -1
        else
          match r.snd with
          | 104 :: _ => ipow1000 time_precision * r.fst * 3600
          | 100 :: _ => ipow1000 time_precision * r.fst * 86400
          | 119 :: _ => ipow1000 time_precision * r.fst * 604800
          | _ => -1
  | _ => -1

/-- The environment `ADMIN_on_new_database` probes, one flag per external
call in source order: the dbname regex, `stat`, `mkdir`, opening and
writing the config file, opening and writing the data file, and loading the
database. -/
structure AdminEnv where
  dbnameMatches : Bytes → Bool
  dirExists : Bool
  mkdirOk : Bool
  confOpenOk : Bool
  confWriteOk : Bool
  datOpenOk : Bool
  datWriteOk : Bool
  dbLoadOk : Bool

/-- Embedding of `ADMIN_on_new_database` (request.c:1289-1542): parse the
request map, validate the fields, create directory and files, load the
database; each failure returns its `CPROTO_ERR_*` member — and the final
success path returns the literal 0 (request.c:1541), not
`CPROTO_SUCCESS_ADMIN`. -/
def ADMIN_on_new_database (env : AdminEnv) (s : List QpTok) : Int :=
  match qp_next s with
  | (t, s1) =>
    if ¬ qp_is_map t then CPROTO_ERR_ADMIN_INVALID_REQUEST
    else
      match adminLoop s1 ⟨none, none, none, none, none⟩ with
      | Except.error _ => CPROTO_ERR_ADMIN_INVALID_REQUEST
      | Except.ok f =>
        match f.dbname with
        | none => CPROTO_ERR_ADMIN_INVALID_REQUEST
        | some dbtok =>
          let time_precision : Int := match f.time_precision with
            | none => DEFAULT_TIME_PRECISION
            | some o => ADMIN_time_precision o
          if time_precision = -1 then CPROTO_ERR_ADMIN
          else
            let duration_num : Int := match f.duration_num with
              | none => DEFAULT_DURATION_NUM * ipow1000 time_precision
              | some o => ADMIN_duration o time_precision
            if duration_num = -1 then CPROTO_ERR_ADMIN
            else
              let duration_log : Int := match f.duration_log with
                | none => DEFAULT_DURATION_LOG * ipow1000 time_precision
                | some o => ADMIN_duration o time_precision
              if duration_log = -1 then CPROTO_ERR_ADMIN
              else
                let buffer_size : Int := match f.buffer_size with
                  | none => DEFAULT_BUFFER_SIZE
                  | some o => intOf o
                if buffer_size % 512 ≠ 0 ∨ buffer_size < 512 then
                  CPROTO_ERR_ADMIN
                else if ¬ env.dbnameMatches (rawOf dbtok) then CPROTO_ERR_ADMIN
                else if env.dirExists then CPROTO_ERR_ADMIN
                else if ¬ env.mkdirOk then CPROTO_ERR_ADMIN
                else if ¬ env.confOpenOk then CPROTO_ERR_ADMIN
                else if ¬ env.confWriteOk then CPROTO_ERR_ADMIN
                else if ¬ env.datOpenOk then CPROTO_ERR_ADMIN
                else if ¬ env.datWriteOk then CPROTO_ERR_ADMIN
                else if ¬ env.dbLoadOk then CPROTO_ERR_ADMIN
                else 0

theorem rpLoop_count {validTs : Int → Bool} :
    ∀ {s : List QpTok} {pk : List OutTok} {count : Int}
      {tp : QpTok} {s2 : List QpTok} {pk2 : List OutTok} {c2 : Int},
      rpLoop validTs s pk count = Except.ok (tp, s2, pk2, c2) →
      count ≤ c2 := by
  intro s pk count
  induction s, pk, count using rpLoop.induct validTs with
  | case1 ts v s3 pk count hv ov hov ih =>
      intro tp s2 pk2 c2 h
      simp only [rpLoop, if_pos hv, hov] at h
      have := ih h
      omega
  | case2 ts v s3 pk count hv hov =>
      intro tp s2 pk2 c2 h
      simp only [rpLoop, if_pos hv, hov] at h
      exact absurd h (by simp)
  | case3 ts v s3 pk count hv =>
      intro tp s2 pk2 c2 h
      simp only [rpLoop, if_neg hv] at h
      exact absurd h (by simp)
  | case4 ts v t s3 pk count hne hv ov hov =>
      intro tp s2 pk2 c2 h
      simp only [rpLoop, if_pos hv, hov] at h
      cases h
      omega
  | case5 ts v t s3 pk count hne hv hov =>
      intro tp s2 pk2 c2 h
      simp only [rpLoop, if_pos hv, hov] at h
      exact absurd h (by simp)
  | case6 ts v t s3 pk count hne hv =>
      intro tp s2 pk2 c2 h
      simp only [rpLoop, if_neg hv] at h
      exact absurd h (by simp)
  | case7 ts v pk count hv ov hov =>
      intro tp s2 pk2 c2 h
      simp only [rpLoop, if_pos hv, hov] at h
      cases h
      omega
  | case8 ts v pk count hv hov =>
      intro tp s2 pk2 c2 h
      simp only [rpLoop, if_pos hv, hov] at h
      exact absurd h (by simp)
  | case9 ts v pk count hv =>
      intro tp s2 pk2 c2 h
      simp only [rpLoop, if_neg hv] at h
      exact absurd h (by simp)
  | case10 ts pk count hv =>
      intro tp s2 pk2 c2 h
      simp only [rpLoop, if_pos hv] at h
      exact absurd h (by simp)
  | case11 ts pk count hv =>
      intro tp s2 pk2 c2 h
      simp only [rpLoop, if_neg hv] at h
      exact absurd h (by simp)
  | case12 s pk count h1 h2 h3 h4 =>
      intro tp s2 pk2 c2 h
      rw [rpLoop.eq_def] at h
      split at h
      · exact (h1 _ _ _ rfl).elim
      · split at h
        · split at h
          · cases h; omega
          · exact absurd h (by simp)
        · exact absurd h (by simp)
      · split at h
        · split at h
          · cases h; omega
          · exact absurd h (by simp)
        · exact absurd h (by simp)
      · split at h <;> exact absurd h (by simp)
      · exact absurd h (by simp)

theorem INSERT_read_points_count {validTs : Int → Bool} {pk : List OutTok}
    {s : List QpTok} {count : Int} {tp : QpTok} {s2 : List QpTok}
    {pk2 : List OutTok} {c2 : Int}
    (h : INSERT_read_points validTs pk s count = Except.ok (tp, s2, pk2, c2)) :
    count ≤ c2 := by
  unfold INSERT_read_points at h
  dsimp only [] at h
  split at h
  · split at h
    · split at h
      · exact absurd h (by simp)
      · rename_i tp1 s3 pk3 c3 heq
        have := rpLoop_count heq
        cases h
        omega
    · exact absurd h (by simp)
  · exact absurd h (by simp)

theorem assignRef_count (st : SiriState) :
    ∀ (B : List QSeries) (pks : List (List OutTok)) (c : Int),
      c ≤ (assignRef st B pks c).snd := by
  intro B
  induction B with
  | nil => intro pks c; simp [assignRef]
  | cons e B ih =>
      intro pks c
      rw [assignRef]
      have := ih (pks.set (INSERT_get_pool st e.name)
        (pkGet pks (INSERT_get_pool st e.name) ++ outSeries e))
        (c + (e.points.length : Int))
      have hlen : (0 : Int) ≤ (e.points.length : Int) := by positivity
      omega

theorem countP_lt_countP_of_witness {α : Type} (P R : α → Bool) :
    ∀ (l : List α), (∀ x ∈ l, P x = true → R x = true) →
      ∀ x0 ∈ l, R x0 = true → P x0 = false →
      l.countP P < l.countP R := by
  intro l
  induction l with
  | nil => intro _ x0 hx0; exact absurd hx0 (by simp)
  | cons y ys ih =>
      intro himp x0 hx0 hR hP
      rcases List.mem_cons.mp hx0 with heq | hmem
      · subst heq
        rw [List.countP_cons, List.countP_cons, hP, hR]
        have hmono : ys.countP P ≤ ys.countP R :=
          List.countP_mono_left (fun x hx => himp x (by simp [hx]))
        simp
        omega
      · rw [List.countP_cons, List.countP_cons]
        have hih := ih (fun x hx => himp x (by simp [hx])) x0 hmem hR hP
        have h1 : (if P y = true then 1 else 0)
            ≤ (if R y = true then 1 else 0) := by
          by_cases hy : P y = true
          · simp [hy, himp y (by simp) hy]
          · simp [hy]
        omega

theorem countP_ne_range (own : Nat) :
    ∀ (k : Nat), own < k →
      (List.range k).countP (fun n => n ≠ own) = k - 1 := by
  intro k
  induction k with
  | zero => intro h; omega
  | succ k ih =>
      intro h
      rw [List.range_succ, List.countP_append]
      by_cases hk : own < k
      · rw [ih hk]
        have hne : (k ≠ own) := by omega
        simp [hne]
        omega
      · have hko : own = k := by omega
        subst hko
        have hz : (List.range own).countP (fun n => n ≠ own) =
            (List.range own).countP (fun _ => true) := by
          apply List.countP_congr
          intro x hx
          have := List.mem_range.mp hx
          simp
          omega
        rw [hz]
        simp

/-- Whether the dispatch loop performs a successful peer send at index `n`:
a non-empty packer for a pool other than our own that the transport
accepts. -/
def sentAt (env : DispatchEnv) (insert : InsertJob) (n : Nat) : Bool :=
  packerLen (insert.packer.getD n []) ≠ PKG_HEADER_SIZE + 1 ∧
    n ≠ env.ownPool ∧ env.sendOk n

theorem dispatchOne_peerSend_count (env : DispatchEnv) (insert : InsertJob)
    (n : Nat) :
    (dispatchOne env n (insert.packer.getD n [])).countP isPeerSend
      = if sentAt env insert n then 1 else 0 := by
  by_cases h1 : packerLen (insert.packer.getD n []) = PKG_HEADER_SIZE + 1
  · have h1x : packerLen (insert.packer[n]?.getD []) = PKG_HEADER_SIZE + 1 := by
      simpa [List.getD_eq_getElem?_getD] using h1
    have hs : sentAt env insert n = false := by simp [sentAt, h1x]
    unfold dispatchOne
    rw [if_pos h1, hs]
    simp [isPeerSend]
  · by_cases h2 : n = env.ownPool
    · have hs : sentAt env insert n = false := by simp [sentAt, h2]
      unfold dispatchOne
      rw [if_neg h1, if_pos h2, hs]
      split_ifs <;> simp_all [isPeerSend]
    · by_cases h6 : env.sendOk n = true
      · have h1x : ¬packerLen (insert.packer[n]?.getD [])
            = PKG_HEADER_SIZE + 1 := by
          simpa [List.getD_eq_getElem?_getD] using h1
        have hs : sentAt env insert n = true := by
          simp [sentAt, h1x, h2, h6]
        unfold dispatchOne
        rw [if_neg h1, if_neg h2, if_pos h6, hs]
        simp [isPeerSend]
      · have hs : sentAt env insert n = false := by simp [sentAt, h6]
        unfold dispatchOne
        rw [if_neg h1, if_neg h2, if_neg h6, hs]
        simp [isPeerSend]

theorem dispatch_flatMap_count (env : DispatchEnv) (insert : InsertJob) :
    ∀ (l : List Nat),
      ((l.map (fun n => dispatchOne env n
        (insert.packer.getD n []))).flatMap id).countP isPeerSend
      = l.countP (sentAt env insert) := by
  intro l
  induction l with
  | nil => simp
  | cons n ns ih =>
      simp only [List.map_cons, List.flatMap_cons, List.countP_append, ih,
        List.countP_cons, id]
      rw [dispatchOne_peerSend_count]
      by_cases h : sentAt env insert n <;> simp [h]
      omega

theorem promises_size_characterisation (env : DispatchEnv)
    (insert : InsertJob) :
    (INSERT_points_to_pools env insert).snd.fst
      = (List.range insert.packer_size).countP (sentAt env insert) := by
  simp only [INSERT_points_to_pools]
  exact dispatch_flatMap_count env insert (List.range insert.packer_size)

/-!
### Concrete instances used by the witnesses
-/

/-- A two-pool state, not re-indexing: series "a" routes to pool 0 (our
own), everything else to pool 1. -/
def stW : SiriState :=
  { flags := 0
    hasSeries := fun _ => false
    lookup := fun s => if s = [97] then 0 else 1
    prevLookup := fun _ => 0
    ownPool := 0
    validTs := fun _ => true }

/-- A re-indexing state: series "a" is present locally; the previous lookup
routes "b" here and everything else to pool 1; the new lookup routes
everything to pool 2. -/
def stReidx : SiriState :=
  { flags := SIRIDB_FLAG_REINDEXING
    hasSeries := fun s => s = [97]
    lookup := fun _ => 2
    prevLookup := fun s => if s = [98] then 0 else 1
    ownPool := 0
    validTs := fun _ => true }

/-- A two-series batch with both array-element key orders. -/
def LW : List (Bool × QSeries) :=
  [(false, ⟨[97], [⟨1, QVal.vint 5⟩]⟩),
   (true, ⟨[98], [⟨2, QVal.vraw [120]⟩, ⟨3, QVal.vdbl 7⟩]⟩)]

/-- Two freshly seeded pool packers. -/
def pksW : List (List OutTok) := [[OutTok.map_open], [OutTok.map_open]]

/-!
### The claims
-/

/-- C1: for every well-formed batch, decoding the map form and the
equivalent array form (elements carrying the points key before the name key
included, via the per-element order flags) produce identical — hence, under
the deterministic byte encoding `tbfBytes`, byte-identical — per-pool
output buffers and the same returned point count. -/
theorem insert_map_array_equivalent (st : SiriState)
    (L : List (Bool × QSeries)) (pks : List (List OutTok))
    (hwf : ∀ be ∈ L, wfSeries st be.snd)
    (hpool : ∀ be ∈ L, INSERT_get_pool st be.snd.name < pks.length) :
    ∃ (outM outA : List (List OutTok)) (nM nA : Int),
      siridb_insert_assign_pools st (encMap (L.map Prod.snd)) pks
        = Except.ok (outM, nM)
      ∧ siridb_insert_assign_pools st (encArray L) pks = Except.ok (outA, nA)
      ∧ outM.map tbfBytes = outA.map tbfBytes
      ∧ nM = nA := by
  have hwfM : ∀ e ∈ L.map Prod.snd, wfSeries st e := by
    intro e he
    obtain ⟨be, hbe, hbe2⟩ := List.mem_map.mp he
    exact hbe2 ▸ hwf be hbe
  have hmap : siridb_insert_assign_pools st (encMap (L.map Prod.snd)) pks
      = Except.ok (assignRef st (L.map Prod.snd) pks 0) := by
    simp only [siridb_insert_assign_pools, encMap, qp_next, qp_is_map,
      if_true, INSERT_assign_by_map]
    exact abmLoop_enc st (L.map Prod.snd) pks 0 hwfM
  have harr : siridb_insert_assign_pools st (encArray L) pks
      = Except.ok (assignRef st (L.map Prod.snd) pks 0) := by
    simp only [siridb_insert_assign_pools, encArray, qp_next, qp_is_map,
      qp_is_array, Bool.false_eq_true, if_false, if_true,
      INSERT_assign_by_array]
    exact abaLoop_enc st L pks 0 hwf hpool
  exact ⟨(assignRef st (L.map Prod.snd) pks 0).fst,
    (assignRef st (L.map Prod.snd) pks 0).fst,
    (assignRef st (L.map Prod.snd) pks 0).snd,
    (assignRef st (L.map Prod.snd) pks 0).snd,
    by rw [hmap], by rw [harr], rfl, rfl⟩

/-- Witness for C1 at a concrete state and batch. -/
theorem insert_map_array_equivalent_w :
    (∀ be ∈ LW, wfSeries stW be.snd)
    ∧ (∀ be ∈ LW, INSERT_get_pool stW be.snd.name < pksW.length)
    ∧ ∃ (outM outA : List (List OutTok)) (nM nA : Int),
        siridb_insert_assign_pools stW (encMap (LW.map Prod.snd)) pksW
          = Except.ok (outM, nM)
        ∧ siridb_insert_assign_pools stW (encArray LW) pksW
          = Except.ok (outA, nA)
        ∧ outM.map tbfBytes = outA.map tbfBytes
        ∧ nM = nA :=
  ⟨by simp [LW, wfSeries, stW, SIRIDB_SERIES_NAME_LEN_MAX], by decide,
    insert_map_array_equivalent stW LW pksW
      (by simp [LW, wfSeries, stW, SIRIDB_SERIES_NAME_LEN_MAX]) (by decide)⟩

/-- C2: pool routing. While the database is re-indexing, a series already
present locally is routed to the server's own pool; an absent series whose
previous-schema pool differs from our own is routed to that previous pool;
an absent series whose previous-schema pool is our own is routed by the
current lookup. Outside re-indexing, the current lookup decides alone. -/
theorem get_pool_routing (st : SiriState) (name : List Nat) :
    (st.flags &&& SIRIDB_FLAG_REINDEXING ≠ 0 → st.hasSeries name = true →
      INSERT_get_pool st name = st.ownPool)
    ∧ (st.flags &&& SIRIDB_FLAG_REINDEXING ≠ 0 → st.hasSeries name = false →
      st.prevLookup name ≠ st.ownPool →
      INSERT_get_pool st name = st.prevLookup name)
    ∧ (st.flags &&& SIRIDB_FLAG_REINDEXING ≠ 0 → st.hasSeries name = false →
      st.prevLookup name = st.ownPool →
      INSERT_get_pool st name = st.lookup name)
    ∧ (st.flags &&& SIRIDB_FLAG_REINDEXING = 0 →
      INSERT_get_pool st name = st.lookup name) := by
  refine ⟨?_, ?_, ?_, ?_⟩
  · intro h1 h2
    simp [INSERT_get_pool, h1, h2]
  · intro h1 h2 h3
    simp [INSERT_get_pool, h1, h2, h3]
  · intro h1 h2 h3
    simp [INSERT_get_pool, h1, h2, h3]
  · intro h1
    simp [INSERT_get_pool, h1]

/-- Witness for C2: all four routing branches at concrete states. -/
theorem get_pool_routing_w :
    INSERT_get_pool stReidx [97] = stReidx.ownPool
    ∧ INSERT_get_pool stReidx [99] = stReidx.prevLookup [99]
    ∧ INSERT_get_pool stReidx [98] = stReidx.lookup [98]
    ∧ INSERT_get_pool stW [97] = stW.lookup [97] :=
  ⟨(get_pool_routing stReidx [97]).1 (by decide) (by decide),
   (get_pool_routing stReidx [99]).2.1 (by decide) (by decide) (by decide),
   (get_pool_routing stReidx [98]).2.2.1 (by decide) (by decide) (by decide),
   (get_pool_routing stW [97]).2.2.2 (by decide)⟩

/-- The S4 stream of the spec: the wire form of `{"a":[["not-an-int",1]]}`. -/
def s4Input : List QpTok :=
  [QpTok.map_open, QpTok.raw [97], QpTok.array_open, QpTok.array2,
   QpTok.raw [110, 111, 116], QpTok.int64 1, QpTok.array_close,
   QpTok.map_close]

/-- Modelled from the spec: the client request handler around
`siridb_insert_assign_pools` (it lives outside insert.c).  On a decode error
it sends the error back and frees the job without dispatching anything, so
no buffer reaches the storage path; on success it hands the buffers on. -/
def insertRequest (st : SiriState) (s : List QpTok)
    (pks : List (List OutTok)) :
    Option (List (List OutTok) × Int) × Option Int :=
  match siridb_insert_assign_pools st s pks with
  | Except.error e => (none, some e)
  | Except.ok r => (some r, none)

/-- C3: on the S4 stream (a point whose first element is not an integer) the
decoder returns `ERR_EXPECTING_INTEGER_TS` for every state, so the request
handler dispatches nothing toward storage; every decode error code of the
taxonomy is a distinct negative integer, different from the point count of
any successful decode of a well-formed batch. -/
theorem decode_error_no_storage (st : SiriState) (pks : List (List OutTok)) :
    siridb_insert_assign_pools st s4Input pks
      = Except.error ERR_EXPECTING_INTEGER_TS
    ∧ (insertRequest st s4Input pks).fst = none
    ∧ (∀ c ∈ insertErrCodes, c < 0)
    ∧ insertErrCodes.Nodup
    ∧ ∀ (B : List QSeries) (out : List (List OutTok)) (n : Int),
        (∀ e ∈ B, wfSeries st e) →
        siridb_insert_assign_pools st (encMap B) pks = Except.ok (out, n) →
        ∀ c ∈ insertErrCodes, c ≠ n := by
  have hs4 : siridb_insert_assign_pools st s4Input pks
      = Except.error ERR_EXPECTING_INTEGER_TS := by
    simp [siridb_insert_assign_pools, s4Input, qp_next, qp_is_map,
      INSERT_assign_by_map, abmLoop, SIRIDB_SERIES_NAME_LEN_MAX,
      INSERT_read_points, qp_is_array, rpLoop]
  refine ⟨hs4, ?_, by decide, by decide, ?_⟩
  · simp [insertRequest, hs4]
  · intro B out n hwf h c hc
    have hmapB : siridb_insert_assign_pools st (encMap B) pks
        = Except.ok (assignRef st B pks 0) := by
      simp only [siridb_insert_assign_pools, encMap, qp_next, qp_is_map,
        if_true, INSERT_assign_by_map]
      exact abmLoop_enc st B pks 0 hwf
    rw [hmapB] at h
    have hn : n = (assignRef st B pks 0).snd := by
      injection h with h2
      exact congrArg Prod.snd h2.symm
    have hge := assignRef_count st B pks 0
    have hneg : c < 0 := by
      revert hc
      have : ∀ x ∈ insertErrCodes, x < 0 := by decide
      exact this c
    omega

/-- Witness for C3 at a concrete state. -/
theorem decode_error_no_storage_w :
    siridb_insert_assign_pools stW s4Input pksW
      = Except.error ERR_EXPECTING_INTEGER_TS
    ∧ (insertRequest stW s4Input pksW).fst = none :=
  ⟨(decode_error_no_storage stW pksW).1, (decode_error_no_storage stW pksW).2.1⟩

/-- A dispatch environment with three pools, no replica, every send
accepted. -/
def envW : DispatchEnv :=
  { ownPool := 0, livePoolLen := 3, hasReplica := false, initsyncIdle := true
    filterOk := true, sendOk := fun _ => true }

/-- A job whose pool-0 packer is empty and whose other packers are not. -/
def jobW : InsertJob :=
  { flags := 0, npoints := 2, pid := 1, packer_size := 3
    packer := [[OutTok.map_open],
      [OutTok.map_open, OutTok.raw_term [98]],
      [OutTok.map_open, OutTok.raw_term [99]]] }

/-- C4: the dispatcher's iteration at a pool index only frees the buffer —
effect list exactly `[freeEmpty n]` — precisely when the buffer length is
the packet header size plus the single QP_MAP_OPEN byte, and an empty
buffer triggers neither a local apply, nor a peer send, nor a replication
enqueue. -/
theorem dispatch_empty_skip (env : DispatchEnv) (insert : InsertJob)
    (n : Nat) (hn : n < insert.packer_size) :
    ((INSERT_points_to_pools env insert).fst.getD n []
        = [DispatchEffect.freeEmpty n]
      ↔ packerLen (insert.packer.getD n []) = PKG_HEADER_SIZE + 1)
    ∧ (packerLen (insert.packer.getD n []) = PKG_HEADER_SIZE + 1 →
        DispatchEffect.localApply n ∉
            (INSERT_points_to_pools env insert).fst.getD n []
        ∧ DispatchEffect.peerSend n ∉
            (INSERT_points_to_pools env insert).fst.getD n []
        ∧ DispatchEffect.replicateEnqueue n ∉
            (INSERT_points_to_pools env insert).fst.getD n []) := by
  have hd : (INSERT_points_to_pools env insert).fst.getD n []
      = dispatchOne env n (insert.packer.getD n []) := by
    simp [INSERT_points_to_pools, List.getD_eq_getElem?_getD,
      List.getElem?_range, hn]
  rw [hd]
  constructor
  · constructor
    · intro h
      by_contra hne
      unfold dispatchOne at h
      rw [if_neg hne] at h
      split_ifs at h <;> simp at h
    · intro h
      unfold dispatchOne
      rw [if_pos h]
  · intro h
    unfold dispatchOne
    rw [if_pos h]
    refine ⟨by simp, by simp, by simp⟩

/-- Witness for C4 at a concrete environment and job. -/
theorem dispatch_empty_skip_w :
    0 < jobW.packer_size
    ∧ (((INSERT_points_to_pools envW jobW).fst.getD 0 []
          = [DispatchEffect.freeEmpty 0]
        ↔ packerLen (jobW.packer.getD 0 []) = PKG_HEADER_SIZE + 1)
      ∧ (packerLen (jobW.packer.getD 0 []) = PKG_HEADER_SIZE + 1 →
          DispatchEffect.localApply 0 ∉
              (INSERT_points_to_pools envW jobW).fst.getD 0 []
          ∧ DispatchEffect.peerSend 0 ∉
              (INSERT_points_to_pools envW jobW).fst.getD 0 []
          ∧ DispatchEffect.replicateEnqueue 0 ∉
              (INSERT_points_to_pools envW jobW).fst.getD 0 [])) :=
  ⟨by decide, dispatch_empty_skip envW jobW 0 (by decide)⟩

/-- C5: the number of per-pool buffers is recorded once at creation from the
pool count of that moment, and every later walk over the buffers — binding
the point count, the dispatch loop, the freeing loop — sees exactly that
many entries, whatever the live pool count of the dispatch environment has
become in the meantime. -/
theorem packer_size_frozen (siridbFlags poolsLen pid : Nat) (npoints : Int)
    (env : DispatchEnv) :
    (siridb_insert_new siridbFlags poolsLen pid).packer_size = poolsLen
    ∧ (siridb_insert_new siridbFlags poolsLen pid).packer.length = poolsLen
    ∧ (siridb_insert_points_to_pools
        (siridb_insert_new siridbFlags poolsLen pid) npoints).packer_size
      = poolsLen
    ∧ (INSERT_points_to_pools env
        (siridb_insert_points_to_pools
          (siridb_insert_new siridbFlags poolsLen pid) npoints)).fst.length
      = poolsLen
    ∧ (siridb_insert_free
        (siridb_insert_points_to_pools
          (siridb_insert_new siridbFlags poolsLen pid) npoints)).length
      = poolsLen := by
  simp [siridb_insert_new, siridb_insert_points_to_pools,
    INSERT_points_to_pools, siridb_insert_free]

/-- A dispatch environment in which the transport accepts only the send to
pool 2, so the send to pool 1 fails. -/
def envF : DispatchEnv :=
  { ownPool := 0, livePoolLen := 3, hasReplica := false, initsyncIdle := true
    filterOk := true, sendOk := fun m => m = 2 }

/-- A job with three non-empty packers. -/
def jobF : InsertJob :=
  { flags := 0, npoints := 3, pid := 2, packer_size := 3
    packer := [[OutTok.map_open, OutTok.raw_term [97]],
      [OutTok.map_open, OutTok.raw_term [98]],
      [OutTok.map_open, OutTok.raw_term [99]]] }

/-- C6: a rejected peer send only frees the packet — the iteration's effect
list is exactly `[peerSendFailedFree n]` — and the aggregator's expected
size after the loop is exactly the number of successful peer sends; in
particular, with the job sized to the live pool count and the own pool in
range, a failed send makes that size strictly smaller than
`pool_count - 1`. -/
theorem failed_send_not_counted (env : DispatchEnv) (insert : InsertJob)
    (n : Nat) (hn : n < insert.packer_size)
    (hne : packerLen (insert.packer.getD n []) ≠ PKG_HEADER_SIZE + 1)
    (hown : n ≠ env.ownPool)
    (hfail : env.sendOk n = false) :
    (INSERT_points_to_pools env insert).fst.getD n []
        = [DispatchEffect.peerSendFailedFree n]
    ∧ (INSERT_points_to_pools env insert).snd.fst
        = (List.range insert.packer_size).countP (sentAt env insert)
    ∧ (insert.packer_size = env.livePoolLen →
        env.ownPool < insert.packer_size →
        (INSERT_points_to_pools env insert).snd.fst
          < (INSERT_points_to_pools env insert).snd.snd) := by
  have hd : (INSERT_points_to_pools env insert).fst.getD n []
      = dispatchOne env n (insert.packer.getD n []) := by
    simp [INSERT_points_to_pools, List.getD_eq_getElem?_getD,
      List.getElem?_range, hn]
  refine ⟨?_, promises_size_characterisation env insert, ?_⟩
  · rw [hd]
    unfold dispatchOne
    rw [if_neg hne, if_neg hown, if_neg (by simp [hfail])]
  · intro hsz hownlt
    rw [promises_size_characterisation env insert]
    have hlt : (List.range insert.packer_size).countP (sentAt env insert)
        < (List.range insert.packer_size).countP
          (fun m => m ≠ env.ownPool) := by
      apply countP_lt_countP_of_witness
        (sentAt env insert) (fun m => m ≠ env.ownPool)
        (List.range insert.packer_size) ?_ n (List.mem_range.mpr hn)
        (by simp [hown]) (by simp [sentAt, hfail])
      intro x _ hx
      simp only [sentAt, Bool.and_eq_true, decide_eq_true_eq] at hx
      simp [hx.2.1]
    have hrange := countP_ne_range env.ownPool insert.packer_size hownlt
    simp only [INSERT_points_to_pools]
    omega

/-- Witness for C6: pool 1's send is rejected, the aggregator ends at one
successful send, strictly below `pool_count - 1 = 2`. -/
theorem failed_send_not_counted_w :
    1 < jobF.packer_size
    ∧ packerLen (jobF.packer.getD 1 []) ≠ PKG_HEADER_SIZE + 1
    ∧ 1 ≠ envF.ownPool
    ∧ envF.sendOk 1 = false
    ∧ ((INSERT_points_to_pools envF jobF).fst.getD 1 []
          = [DispatchEffect.peerSendFailedFree 1]
      ∧ (INSERT_points_to_pools envF jobF).snd.fst
          = (List.range jobF.packer_size).countP (sentAt envF jobF)
      ∧ (jobF.packer_size = envF.livePoolLen →
          envF.ownPool < jobF.packer_size →
          (INSERT_points_to_pools envF jobF).snd.fst
            < (INSERT_points_to_pools envF jobF).snd.snd)) :=
  ⟨by decide, by decide, by decide, by decide,
    failed_send_not_counted envF jobF 1 (by decide) (by decide) (by decide)
      (by decide)⟩

/-- C7 counterexample: with two failed peers, "A" answered first and "B"
second (both responses carry a non-ACK tag), the single error message of
the completion callback names "B" — the last failed peer, not the first. -/
theorem on_response_first_peer_cex :
    (INSERT_on_response [111] false 5
        [some ⟨[65], some 0⟩, some ⟨[66], some 0⟩]).fst
      = RespMsg.peerErr [66]
    ∧ RespMsg.peerErr [66] ≠ RespMsg.peerErr ([65] : List Nat) := by
  decide

/-- C7 (amended): when at least one peer fails (missing response or a
response whose tag is not ACK_INSERT) and no server-level error is set, the
single error message names the LAST failed peer in promise order, and the
response carries the insert error tag. -/
theorem on_response_last_peer (ownName : List Nat) (npoints : Int)
    (ps : List PromiseEntry) (q : PromiseEntry)
    (hq : (failedOf ps).getLast? = some q) :
    INSERT_on_response ownName false npoints (ps.map some)
      = (RespMsg.peerErr q.serverName, CPROTO_ERR_INSERT) := by
  unfold INSERT_on_response
  rw [onRespLoop_all_some]
  rw [foldl_const_getLast
    (fun pr => (RespMsg.peerErr pr.serverName, CPROTO_ERR_INSERT))
    (failedOf ps) (RespMsg.uninit, CPROTO_RES_INSERT) q hq]
  simp

/-- Witness for the amended C7. -/
theorem on_response_last_peer_w :
    (failedOf [⟨[65], some 0⟩, ⟨[66], some 0⟩]).getLast?
        = some (⟨[66], some 0⟩ : PromiseEntry)
    ∧ INSERT_on_response [111] false 5
        ([⟨[65], some 0⟩, ⟨[66], some 0⟩].map some)
      = (RespMsg.peerErr [66], CPROTO_ERR_INSERT) :=
  ⟨by decide,
    on_response_last_peer [111] 5 [⟨[65], some 0⟩, ⟨[66], some 0⟩]
      ⟨[66], some 0⟩ (by decide)⟩

/-- C8: on a repacker-built buffer, the test variant of the local apply
creates a missing series only when the current lookup routes it to the
server's own pool; a series it forwards instead has no point written
locally, its forwarded fragment — terminated name plus the whole points
object — lands verbatim in the forward packer of its pool, and that very
fragment is a sub-sequence of the received input. -/
theorem local_test_forward_verbatim (env : LocalTestEnv)
    (series0 : List Bytes) (L : List QSeries)
    (hwf : ∀ e ∈ L, wfLocal e) :
    (∀ nm v, LtEffect.createSeries nm v
        ∈ (INSERT_local_test env series0 (encLocalBody L)).fst →
      env.lookup nm = env.ownPool)
    ∧ ∀ e ∈ L, e.name ∉ series0 → env.lookup e.name ≠ env.ownPool →
        (¬env.hasReplica = true ∨ env.serverIdOf e.name = env.ownServerId) →
        env.lookup e.name < env.poolsLen →
        (∀ ts v, LtEffect.addPoint e.name ts v
            ∉ (INSERT_local_test env series0 (encLocalBody L)).fst)
        ∧ fwdFragment e <:+:
            ((INSERT_local_test env series0 (encLocalBody L)).snd.fst).getD
              (env.lookup e.name) []
        ∧ fwdFragment e <:+: encLocalBody L := by
  have heq : INSERT_local_test env series0 (encLocalBody L)
      = refLT env L series0 (List.replicate env.poolsLen []) false [] := by
    simp only [INSERT_local_test, encLocalBody, qp_next]
    exact ltLoop_enc env L series0 _ false [] hwf
  rw [heq]
  constructor
  · intro nm v h
    rcases refLT_create env L series0 _ false [] nm v h with hin | hown
    · exact absurd hin (by simp)
    · exact hown
  · intro e he hser hlk hrep hlt
    refine ⟨refLT_no_apply env L series0 _ false [] e.name hser hlk
        (by simp), ?_, ?_⟩
    · exact refLT_fwd_frag env L series0 _ false [] e he hser hlk hrep
        (by simpa using hlt)
    · obtain ⟨s, t, hst⟩ := List.append_of_mem he
      refine ⟨QpTok.map_open ::
        s.flatMap (fun x => rawTermTok x.name :: encPoints x.points),
        t.flatMap (fun x => rawTermTok x.name :: encPoints x.points), ?_⟩
      simp [encLocalBody, hst, fwdFragment]

/-- A single-pool-pair test environment: "a" routes to our pool 0,
everything else to pool 1; no replica. -/
def envLT : LocalTestEnv :=
  { ownPool := 0, poolsLen := 2
    lookup := fun s => if s = [97] then 0 else 1
    hasReplica := false, serverIdOf := fun _ => 0, ownServerId := 0 }

/-- The C8 batch: "a" (ours) and "x" (pool 1, to be forwarded). -/
def Lw8 : List QSeries :=
  [⟨[97], [⟨1, QVal.vint 5⟩]⟩, ⟨[120], [⟨2, QVal.vint 7⟩]⟩]

/-- Witness for C8: "x" is forwarded verbatim to pool 1, none of its points
is applied locally, and every created series belongs to pool 0. -/
theorem local_test_forward_verbatim_w :
    (∀ e ∈ Lw8, wfLocal e)
    ∧ (∀ nm v, LtEffect.createSeries nm v
        ∈ (INSERT_local_test envLT [] (encLocalBody Lw8)).fst →
      envLT.lookup nm = envLT.ownPool)
    ∧ (∀ ts v, LtEffect.addPoint [120] ts v
        ∉ (INSERT_local_test envLT [] (encLocalBody Lw8)).fst)
    ∧ fwdFragment ⟨[120], [⟨2, QVal.vint 7⟩]⟩ <:+:
        ((INSERT_local_test envLT [] (encLocalBody Lw8)).snd.fst).getD
          (envLT.lookup [120]) []
    ∧ fwdFragment ⟨[120], [⟨2, QVal.vint 7⟩]⟩ <:+: encLocalBody Lw8 := by
  have hwf : ∀ e ∈ Lw8, wfLocal e := by simp [Lw8, wfLocal]
  have h := local_test_forward_verbatim envLT [] Lw8 hwf
  have h2 := h.2 ⟨[120], [⟨2, QVal.vint 7⟩]⟩ (by simp [Lw8]) (by simp)
    (by decide) (by decide) (by decide)
  exact ⟨hwf, h.1, h2.1, h2.2.1, h2.2.2⟩

set_option maxHeartbeats 2000000 in
/-- Every return of `ADMIN_on_new_database` is one of the two error members
or the literal 0 — `CPROTO_SUCCESS_ADMIN` is never among them. -/
theorem admin_returns (env : AdminEnv) (s : List QpTok) :
    ADMIN_on_new_database env s = CPROTO_ERR_ADMIN_INVALID_REQUEST
    ∨ ADMIN_on_new_database env s = CPROTO_ERR_ADMIN
    ∨ ADMIN_on_new_database env s = 0 := by
  unfold ADMIN_on_new_database
  dsimp only []
  by_cases h1 : qp_is_map (qp_next s).1 = true
  · rw [if_neg (not_not_intro h1)]
    rcases hR : adminLoop (qp_next s).2
        { dbname := none, time_precision := none, buffer_size := none,
          duration_num := none, duration_log := none } with e | f
    · simp only [hR]
      exact Or.inl trivial
    · simp only [hR]
      repeat' split
      all_goals first
        | (left; rfl)
        | (right; left; rfl)
        | (right; right; rfl)
  · rw [if_pos h1]
    left; rfl

/-- An administration environment in which every filesystem step and the
database load succeed. -/
def envAdm : AdminEnv :=
  { dbnameMatches := fun _ => true, dirExists := false, mkdirOk := true
    confOpenOk := true, confWriteOk := true, datOpenOk := true
    datWriteOk := true, dbLoadOk := true }

/-- A minimal new-database request: a map carrying only `dbname: "db"`. -/
def admStream : List QpTok :=
  [QpTok.map_open, QpTok.raw dbnameLit, QpTok.raw [100, 98],
   QpTok.map_close]

/-- C9: on its success path (directory created, config and data files
written, database loaded), `ADMIN_on_new_database` returns the literal 0,
which is not the `CPROTO_SUCCESS_ADMIN` member of its declared return type;
indeed no return of the handler ever equals `CPROTO_SUCCESS_ADMIN`. -/
theorem admin_new_database_returns_zero :
    ADMIN_on_new_database envAdm admStream = 0
    ∧ (0 : Int) ≠ CPROTO_SUCCESS_ADMIN
    ∧ ∀ (env : AdminEnv) (s : List QpTok),
        ADMIN_on_new_database env s ≠ CPROTO_SUCCESS_ADMIN := by
  refine ⟨?_, by decide, ?_⟩
  · simp [ADMIN_on_new_database, admStream, qp_next, qp_is_map, adminLoop,
      adminStep, adminStep2, adminStep3, adminStep4, adminStep5, keyMatches,
      strncmpZero, isRawTok, envAdm, DEFAULT_TIME_PRECISION,
      DEFAULT_DURATION_NUM, DEFAULT_DURATION_LOG, DEFAULT_BUFFER_SIZE,
      ipow1000, CPROTO_ERR_ADMIN, CPROTO_ERR_ADMIN_INVALID_REQUEST,
      dbnameLit, timePrecisionLit, bufferSizeLit, durationNumLit,
      durationLogLit]
  · intro env s
    rcases admin_returns env s with h | h | h <;> rw [h] <;> decide

/-- The C10 batch behind both inputs: "a" with point (1,5) and "b" with
point (2,7). -/
def L10 : List (Bool × QSeries) :=
  [(false, ⟨[97], [⟨1, QVal.vint 5⟩]⟩),
   (true, ⟨[98], [⟨2, QVal.vint 7⟩]⟩)]

/-- The array form of `L10` with exact keys "name" and "points". -/
def exactKeyInput : List QpTok := encArray L10

/-- The array form of `L10` with strict-prefix keys: "nam" for the name,
"p" for the points in the first element; the empty string for the points
and "n" for the name in the second. -/
def prefixKeyInput : List QpTok :=
  [QpTok.array_open,
   QpTok.map2, QpTok.raw [110, 97, 109], QpTok.raw [97],
   QpTok.raw [112], QpTok.array_open, QpTok.array2, QpTok.int64 1,
   QpTok.int64 5, QpTok.array_close,
   QpTok.map2, QpTok.raw [],
   QpTok.array_open, QpTok.array2, QpTok.int64 2, QpTok.int64 7,
   QpTok.array_close, QpTok.raw [110], QpTok.raw [98],
   QpTok.array_close]

/-- C10: the array-form key comparison is `strncmp` bounded by the key's own
length, so the strict prefixes "p", "" of "points" and "nam", "n" of "name"
pass the key guards, and the prefix-key input decodes to exactly the result
of the exact-key input — here a successful decode of both series. -/
theorem prefix_keys_accepted :
    keyMatches [112] pointsLit = true
    ∧ keyMatches [] pointsLit = true
    ∧ keyMatches [110, 97, 109] nameLit = true
    ∧ keyMatches [110] nameLit = true
    ∧ [112] ≠ pointsLit ∧ ([] : Bytes) ≠ pointsLit
    ∧ [110, 97, 109] ≠ nameLit ∧ [110] ≠ nameLit
    ∧ siridb_insert_assign_pools stW prefixKeyInput pksW
        = siridb_insert_assign_pools stW exactKeyInput pksW
    ∧ siridb_insert_assign_pools stW prefixKeyInput pksW
        = Except.ok
          ([[OutTok.map_open, OutTok.raw_term [97], OutTok.array_open,
             OutTok.array2, OutTok.int64 1, OutTok.int64 5,
             OutTok.array_close],
            [OutTok.map_open, OutTok.raw_term [98], OutTok.array_open,
             OutTok.array2, OutTok.int64 2, OutTok.int64 7,
             OutTok.array_close]], 2) := by
  have h1 : siridb_insert_assign_pools stW prefixKeyInput pksW
      = Except.ok
        ([[OutTok.map_open, OutTok.raw_term [97], OutTok.array_open,
           OutTok.array2, OutTok.int64 1, OutTok.int64 5,
           OutTok.array_close],
          [OutTok.map_open, OutTok.raw_term [98], OutTok.array_open,
           OutTok.array2, OutTok.int64 2, OutTok.int64 7,
           OutTok.array_close]], 2) := by
    simp [siridb_insert_assign_pools, prefixKeyInput, qp_next, qp_is_map,
      qp_is_array, INSERT_assign_by_array, abaLoop, INSERT_read_points,
      rpLoop, valOut, keyMatches, strncmpZero, pointsLit, nameLit, pkGet,
      INSERT_get_pool, stW, pksW, SIRIDB_SERIES_NAME_LEN_MAX]
  have h2 : siridb_insert_assign_pools stW exactKeyInput pksW
      = Except.ok
        ([[OutTok.map_open, OutTok.raw_term [97], OutTok.array_open,
           OutTok.array2, OutTok.int64 1, OutTok.int64 5,
           OutTok.array_close],
          [OutTok.map_open, OutTok.raw_term [98], OutTok.array_open,
           OutTok.array2, OutTok.int64 2, OutTok.int64 7,
           OutTok.array_close]], 2) := by
    simp [siridb_insert_assign_pools, exactKeyInput, L10, encArray,
      encArrElem, encPoints, encPoint, valTok, qp_next, qp_is_map,
      qp_is_array, INSERT_assign_by_array, abaLoop, INSERT_read_points,
      rpLoop, valOut, keyMatches, strncmpZero, pointsLit, nameLit, pkGet,
      INSERT_get_pool, stW, pksW, SIRIDB_SERIES_NAME_LEN_MAX]
  refine ⟨by decide, by decide, by decide, by decide, by decide, by decide,
    by decide, by decide, ?_, h1⟩
  rw [h1, h2]
